import Mathlib

/-!
Shallow embedding of the multiplayer coordination layer of the repository:
`src/server/RoomManager.js` (room registry, team balancer) and the
host-authorization message handlers of `src/server/server.js`.

JavaScript objects used as string-keyed dictionaries (`this.rooms`,
`room.players`) preserve insertion order, overwrite in place on assignment
to an existing key, and drop entries on `delete`; they are embedded as
association lists `List (String × α)` with the primitives `objGet`,
`objSet`, `objDelete`, `objUpdate` below mirroring those semantics.

`Math.random().toString(36).substring(2, 6).toUpperCase()` in
`generateRoomId` is a random oracle; its output is passed to `createRoom`
as an explicit `code` argument, and `Date.now()` as an explicit `now`
argument, so every reachable registry state is quantified over all
generator outcomes.  JavaScript truthiness of the inbound settings fields
(`settings.teamSize || 1`, `settings.map || "orbital"`,
`parseInt(settings.teamSize) || room.settings.teamSize`) is embedded
explicitly: a missing field is `none`, the number `0` and the empty string
are falsy.
-/

namespace Dodgeball

/-- The two fixed team labels of `RoomManager.js` (`"BLUE"` / `"RED"`). -/
inductive Team where
  | BLUE : Team
  | RED : Team
deriving DecidableEq, Repr

/-- A room-scoped player record, as built by `addPlayerToRoom`. -/
structure Player where
  id : String
  team : Team
  isBot : Bool
  isHost : Bool
  name : Option String
deriving DecidableEq, Repr

/-- The stored `room.settings` object. -/
structure RoomSettings where
  maxPlayers : Int
  teamSize : Int
  map : String
deriving DecidableEq, Repr

/-- A room record, as built by `createRoom`. -/
structure Room where
  id : String
  hostId : String
  players : List (String × Player)
  gameState : String
  settings : RoomSettings
  createdAt : Nat
deriving DecidableEq, Repr

/-- The `RoomManager` state: the `this.rooms` dictionary. -/
structure RM where
  rooms : List (String × Room)
deriving DecidableEq, Repr

/-- The inbound settings payload `{teamSize?, map?}`; `none` stands for a
missing (or, for `teamSize`, non-numeric) field. -/
structure InSettings where
  teamSize : Option Int
  map : Option String
deriving DecidableEq, Repr

/-- JS dictionary read: `m[k]`, `undefined` becomes `none`. -/
def objGet : List (String × α) → String → Option α
  | [], _ => none
  | a :: m, k => if a.1 = k then some a.2 else objGet m k

/-- JS dictionary write `m[k] = v`: overwrite in place when the key exists,
append otherwise.  (A JS object cannot hold a duplicate key, so replacing
the first occurrence is exact on every representable dictionary.) -/
def objSet : List (String × α) → String → α → List (String × α)
  | [], k, v => [(k, v)]
  | a :: m, k, v => if a.1 = k then (k, v) :: m else a :: objSet m k v

/-- JS `delete m[k]`. -/
def objDelete : List (String × α) → String → List (String × α)
  | [], _ => []
  | a :: m, k => if a.1 = k then objDelete m k else a :: objDelete m k

/-- In-place mutation of the value stored at an existing key
(`m[k].field = ...`).  Like `objSet`, acts on the first occurrence, which
is the only occurrence a JS object can have. -/
def objUpdate : List (String × α) → String → (α → α) → List (String × α)
  | [], _, _ => []
  | a :: m, k, f =>
      if a.1 = k then (a.1, f a.2) :: m
      else a :: objUpdate m k f

/-- JS `Object.keys(m)`: keys in insertion order. -/
def objKeys (m : List (String × α)) : List String :=
  m.map (fun kv => kv.1)

/-- JS `Object.values(m)`: values in insertion order. -/
def objValues (m : List (String × α)) : List α :=
  m.map (fun kv => kv.2)

/-- Count of members of `room.players` on team `t`, the
`Object.values(room.players).filter((p) => p.team === t).length` pattern of
`addPlayerToRoom` / `switchTeam`. -/
def teamCount (room : Room) (t : Team) : Nat :=
  ((objValues room.players).filter (fun p => p.team == t)).length

/-- `RoomManager.addPlayerToRoom`: auto-assign the team with fewer players
(`blueCount <= redCount ? "BLUE" : "RED"`) and store a fresh player record.
Called only with an existing `roomId`; a missing room is a no-op here where
the JS would fault on `room.players`. -/
def addPlayerToRoom (rm : RM) (roomId playerId : String) (isHost : Bool) :
    RM :=
  match objGet rm.rooms roomId with
  | none => rm
  | some room =>
      let blueCount := teamCount room Team.BLUE
      let redCount := teamCount room Team.RED
      let team := if blueCount ≤ redCount then Team.BLUE else Team.RED
      let room' := { room with
        players := objSet room.players playerId
          { id := playerId, team := team, isBot := false, isHost := isHost,
            name := none } }
      { rm with rooms := objSet rm.rooms roomId room' }

/-- `RoomManager.createRoom`, with the `generateRoomId()` outcome passed in
as `code` and `Date.now()` as `now`.  Note the source installs the room at
`code` unconditionally (`this.rooms[roomId] = {...}`), with no collision
check, and performs no validation of `settings.teamSize`. -/
def createRoom (rm : RM) (code hostId : String) (settings : InSettings)
    (now : Nat) : RM × String :=
  let teamSize : Int :=
    match settings.teamSize with
    | some v => if v = 0 then 1 else v
    | none => 1
  let room : Room :=
    { id := code, hostId := hostId, players := [], gameState := "LOBBY",
      settings :=
        { maxPlayers := teamSize * 2, teamSize := teamSize,
          map :=
            match settings.map with
            | some m => if m = "" then "orbital" else m
            | none => "orbital" },
      createdAt := now }
  let rm' : RM := { rooms := objSet rm.rooms code room }
  (addPlayerToRoom rm' code hostId true, code)

/-- Fuel-indexed form of the `while` loops of `rebalanceTeams`: while
`src.length > teamSize && dst.length < teamSize`, pop the last element of
`src` and push it onto `dst`.  Operates on the lists of player ids in
filter order.  Each iteration removes one element of `src`, and with `src`
empty the guard is false (it would need `0 > teamSize` and
`dst.length < teamSize` at once), so fuel `src.length` runs the loop to
completion. -/
def drainFuel (t : Int) : Nat → List String → List String →
    List String × List String
  | 0, src, dst => (src, dst)
  | fuel + 1, src, dst =>
      if (src.length : Int) > t ∧ (dst.length : Int) < t then
        match src with
        | [] => (src, dst)
        | a :: l =>
            drainFuel t fuel (a :: l).dropLast
              (dst ++ [(a :: l).getLast (List.cons_ne_nil a l)])
      else (src, dst)

/-- The `while` loop of `rebalanceTeams`, run to completion. -/
def drain (t : Int) (src dst : List String) : List String × List String :=
  drainFuel t src.length src dst

/-- The ids of the players of `room` on team `t`, in filter order — the
`players.filter((p) => p.team === t)` arrays of `rebalanceTeams`. -/
def teamIds (room : Room) (t : Team) : List String :=
  (room.players.filter (fun kv => kv.2.team == t)).map (fun kv => kv.1)

/-- The two team-id lists after both move loops of `rebalanceTeams`:
first excess BLUE members move to RED, then excess RED members to BLUE.
The first component is the final RED list, the second the final BLUE
list. -/
def rebalanceFinal (room : Room) : List String × List String :=
  let t := room.settings.teamSize
  let p1 := drain t (teamIds room Team.BLUE) (teamIds room Team.RED)
  drain t p1.2 p1.1

/-- `RoomManager.rebalanceTeams`: filter the players into the BLUE and RED
lists, run the two move loops, then reflect the team mutations of the moved
player objects back into the (order-preserving) players dictionary. -/
def rebalanceTeams (room : Room) : Room :=
  let p2 := rebalanceFinal room
  { room with
    players := room.players.map (fun kv =>
      if kv.1 ∈ p2.2 then (kv.1, { kv.2 with team := Team.BLUE })
      else if kv.1 ∈ p2.1 then (kv.1, { kv.2 with team := Team.RED })
      else kv) }

/-- `RoomManager.updateSettings`.  Returns the updated room (JS returns
`room`, or `undefined` when the room is missing). -/
def updateSettings (rm : RM) (roomId : String) (settings : InSettings) :
    RM × Option Room :=
  match objGet rm.rooms roomId with
  | none => (rm, none)
  | some room =>
      let newTeamSize : Int :=
        match settings.teamSize with
        | some v => if v = 0 then room.settings.teamSize else v
        | none => room.settings.teamSize
      let newMap : String :=
        match settings.map with
        | some m => if m = "" then room.settings.map else m
        | none => room.settings.map
      let room1 := { room with
        settings :=
          { maxPlayers := newTeamSize * 2, teamSize := newTeamSize,
            map := newMap } }
      let room2 := rebalanceTeams room1
      ({ rm with rooms := objSet rm.rooms roomId room2 }, some room2)

/-- Outcome of `joinRoom`: the `{error}` / `{success, room}` reply. -/
inductive JoinOutcome where
  | err (msg : String) : JoinOutcome
  | ok : JoinOutcome
deriving DecidableEq, Repr

/-- `RoomManager.joinRoom`. -/
def joinRoom (rm : RM) (roomId playerId : String) : RM × JoinOutcome :=
  match objGet rm.rooms roomId with
  | none => (rm, JoinOutcome.err "Room not found")
  | some room =>
      if room.gameState ≠ "LOBBY" then (rm, JoinOutcome.err "Game already started")
      else
        let playerCount := (objKeys room.players).length
        if (playerCount : Int) ≥ room.settings.maxPlayers then
          (rm, JoinOutcome.err "Room full")
        else (addPlayerToRoom rm roomId playerId false, JoinOutcome.ok)

/-- Outcome of `switchTeam`: `undefined`, `{success, player}`, or
`{error: "Team full"}`. -/
inductive SwitchOutcome where
  | none_ : SwitchOutcome
  | success (p : Player) : SwitchOutcome
  | teamFull : SwitchOutcome
deriving DecidableEq, Repr

/-- `RoomManager.switchTeam`; `targetTeam = none` is a falsy `targetTeam`,
which toggles to the opposite team. -/
def switchTeam (rm : RM) (roomId playerId : String) (targetTeam : Option Team) :
    RM × SwitchOutcome :=
  match objGet rm.rooms roomId with
  | none => (rm, SwitchOutcome.none_)
  | some room =>
      match objGet room.players playerId with
      | none => (rm, SwitchOutcome.none_)
      | some player =>
          let newTeam :=
            match targetTeam with
            | some tt => tt
            | none => if player.team = Team.BLUE then Team.RED else Team.BLUE
          if player.team = newTeam then (rm, SwitchOutcome.success player)
          else
            let tc := teamCount room newTeam
            if (tc : Int) ≥ room.settings.teamSize then (rm, SwitchOutcome.teamFull)
            else
              let room' := { room with
                players := objUpdate room.players playerId
                  (fun p => { p with team := newTeam }) }
              ({ rm with rooms := objSet rm.rooms roomId room' },
               SwitchOutcome.success { player with team := newTeam })

/-- `RoomManager.leaveRoom`; the second component is the `newHostId` of the
`{newHostId}` result when a host handoff happened. -/
def leaveRoom (rm : RM) (roomId playerId : String) : RM × Option String :=
  match objGet rm.rooms roomId with
  | none => (rm, none)
  | some room =>
      let players1 := objDelete room.players playerId
      if players1.isEmpty then
        ({ rooms := objDelete rm.rooms roomId }, none)
      else if room.hostId = playerId then
        match players1 with
        | [] => (rm, none)
        | (nid, _) :: _ =>
            let players2 :=
              objUpdate players1 nid (fun p => { p with isHost := true })
            let room' := { room with hostId := nid, players := players2 }
            ({ rm with rooms := objSet rm.rooms roomId room' }, some nid)
      else
        let room' := { room with players := players1 }
        ({ rm with rooms := objSet rm.rooms roomId room' }, none)

/-- `RoomManager.getRoom`. -/
def getRoom (rm : RM) (roomId : String) : Option Room :=
  objGet rm.rooms roomId

/-- `RoomManager.getPlayerRoom`: linear scan of `Object.values(this.rooms)`
for the first room whose players dictionary holds `playerId`. -/
def getPlayerRoom (rm : RM) (playerId : String) : Option Room :=
  (rm.rooms.map (fun kv => kv.2)).find?
    (fun r => (objGet r.players playerId).isSome)

/-- Messages emitted by the `server.js` handlers modelled here. -/
inductive OutEvent where
  | roomSettingsUpdated (roomId : String) (s : RoomSettings) : OutEvent
  | roundState (roomId : String) : OutEvent
  | playerHit (roomId : String) : OutEvent
deriving DecidableEq, Repr

/-- The `socket.on("update_room_settings", ...)` handler of `server.js`:
resolve the sender's room, drop the message unless the sender is that
room's host, otherwise apply `updateSettings` and broadcast
`room_settings_updated` when a room was returned. -/
def handleUpdateRoomSettings (rm : RM) (senderId : String)
    (settings : InSettings) : RM × List OutEvent :=
  match getPlayerRoom rm senderId with
  | none => (rm, [])
  | some room =>
      if room.hostId ≠ senderId then (rm, [])
      else
        let res := updateSettings rm room.id settings
        match res.2 with
        | some updatedRoom =>
            (res.1, [OutEvent.roomSettingsUpdated room.id updatedRoom.settings])
        | none => (res.1, [])

/-- The `socket.on("round_state", ...)` handler of `server.js`: relay to the
room only when the sender is the host; no registry mutation. -/
def handleRoundState (rm : RM) (senderId : String) : List OutEvent :=
  match getPlayerRoom rm senderId with
  | some room =>
      if room.hostId = senderId then [OutEvent.roundState room.id] else []
  | none => []

/-- The `socket.on("player_hit", ...)` handler of `server.js`: relay to the
room only when the sender is the host; no registry mutation. -/
def handlePlayerHit (rm : RM) (senderId : String) : List OutEvent :=
  match getPlayerRoom rm senderId with
  | some room =>
      if room.hostId = senderId then [OutEvent.playerHit room.id] else []
  | none => []

/-- The team-assignment rule as the specification words it: the team with
strictly fewer current members, ties resolving to the default team BLUE. -/
def teamChoiceSpec (blueCount redCount : Nat) : Team :=
  if blueCount < redCount then Team.BLUE
  else if redCount < blueCount then Team.RED
  else Team.BLUE

/-- Everything about a players dictionary except the `team` fields:
key, `id`, `isHost`, `isBot`, `name` per entry, in order. -/
def memberView (room : Room) :
    List (String × String × Bool × Bool × Option String) :=
  room.players.map (fun kv => (kv.1, kv.2.id, kv.2.isHost, kv.2.isBot, kv.2.name))

/-- Keys of the players flagged `isHost`, in insertion order. -/
def hostKeys (room : Room) : List String :=
  (room.players.filter (fun kv => kv.2.isHost)).map (fun kv => kv.1)

/-- `id` fields of the member records flagged `isHost`, in insertion order
(the member-facing form of the exactly-one-host property). -/
def hostValueIds (room : Room) : List String :=
  ((objValues room.players).filter (fun p => p.isHost)).map (fun p => p.id)

/-- Well-formedness of a registered room: non-empty membership, no
duplicate player keys, each record's `id` equal to its key, and exactly one
host whose key is `room.hostId`. -/
def RoomWF (room : Room) : Prop :=
  room.players ≠ [] ∧
  (objKeys room.players).Nodup ∧
  (∀ kv ∈ room.players, (kv : String × Player).2.id = kv.1) ∧
  hostKeys room = [room.hostId]

/-- Every registered room is well-formed. -/
def RegistryWF (rm : RM) : Prop :=
  ∀ kv ∈ rm.rooms, RoomWF (kv : String × Room).2

/-- Registry states reachable by any sequence of the five room-management
operations from the empty registry, for every outcome of the room-code
generator. -/
inductive Reachable : RM → Prop where
  | init : Reachable ⟨[]⟩
  | create (rm : RM) (code hostId : String) (s : InSettings) (now : Nat) :
      Reachable rm → Reachable (createRoom rm code hostId s now).1
  | join (rm : RM) (roomId playerId : String) :
      Reachable rm → Reachable (joinRoom rm roomId playerId).1
  | leave (rm : RM) (roomId playerId : String) :
      Reachable rm → Reachable (leaveRoom rm roomId playerId).1
  | switch (rm : RM) (roomId playerId : String) (target : Option Team) :
      Reachable rm → Reachable (switchTeam rm roomId playerId target).1
  | update (rm : RM) (roomId : String) (s : InSettings) :
      Reachable rm → Reachable (updateSettings rm roomId s).1

/-- Like `Reachable`, but `joinRoom` is only ever invoked with a player that
is not already a member of the target room (the normal-operation discipline;
the source performs no such check itself). -/
inductive ReachableFresh : RM → Prop where
  | init : ReachableFresh ⟨[]⟩
  | create (rm : RM) (code hostId : String) (s : InSettings) (now : Nat) :
      ReachableFresh rm → ReachableFresh (createRoom rm code hostId s now).1
  | join (rm : RM) (roomId playerId : String) :
      ReachableFresh rm →
      (∀ room, objGet rm.rooms roomId = some room →
        objGet room.players playerId = none) →
      ReachableFresh (joinRoom rm roomId playerId).1
  | leave (rm : RM) (roomId playerId : String) :
      ReachableFresh rm → ReachableFresh (leaveRoom rm roomId playerId).1
  | switch (rm : RM) (roomId playerId : String) (target : Option Team) :
      ReachableFresh rm → ReachableFresh (switchTeam rm roomId playerId target).1
  | update (rm : RM) (roomId : String) (s : InSettings) :
      ReachableFresh rm → ReachableFresh (updateSettings rm roomId s).1

/-! ### Concrete states used by the counterexamples and witnesses -/

/-- One room `"AAAA"` created by `"p1"` with `teamSize 2`, then joined by
`"p2"` (team RED) and `"p3"` (tie, team BLUE) — the spec's scenario 1. -/
def rmScenario1 : RM :=
  (joinRoom (joinRoom
    (createRoom ⟨[]⟩ "AAAA" "p1" ⟨some 2, none⟩ 0).1 "AAAA" "p2").1
    "AAAA" "p3").1

/-- `rmScenario1` after the host shrinks `teamSize` to 1 (the spec's
scenario 3): BLUE keeps `{p1, p3}` because RED is already full. -/
def rmShrunk : RM :=
  (updateSettings rmScenario1 "AAAA" ⟨some 1, none⟩).1

/-- One active room `"AAAA"` hosted by `"p1"` (`teamSize 1`). -/
def rmOne : RM :=
  (createRoom ⟨[]⟩ "AAAA" "p1" ⟨some 1, none⟩ 0).1

/-- `rmOne` after `createRoom` draws the colliding code `"AAAA"` for a
second requester `"p2"`. -/
def rmCollide : RM :=
  (createRoom rmOne "AAAA" "p2" ⟨some 2, none⟩ 0).1

/-- `rmOne` after its host `"p1"` sends `join_room` for its own room. -/
def rmSelfJoin : RM :=
  (joinRoom rmOne "AAAA" "p1").1

/-- Two rooms, then `"p1"` (already in `"AAAA"`) joins `"BBBB"`. -/
def rmTwoRooms : RM :=
  (joinRoom (createRoom rmOne "BBBB" "p2" ⟨some 1, none⟩ 0).1 "BBBB" "p1").1

/-- A room created with the out-of-range payload `teamSize = -1`. -/
def rmNegative : RM :=
  (createRoom ⟨[]⟩ "AAAA" "h" ⟨some (-1), none⟩ 0).1

/-- A room created with the payload `{teamSize: 1, map: ""}`. -/
def rmEmptyMap : RM :=
  (createRoom ⟨[]⟩ "AAAA" "h" ⟨some 1, some ""⟩ 0).1

/-- The single room of `rmOne`, written out. -/
def rmOneRoom : Room :=
  { id := "AAAA", hostId := "p1",
    players := [("p1",
      { id := "p1", team := Team.BLUE, isBot := false, isHost := true,
        name := none })],
    gameState := "LOBBY",
    settings := { maxPlayers := 2, teamSize := 1, map := "orbital" },
    createdAt := 0 }

/-- `rmOneRoom` after `"p2"` is added (RED, since BLUE has 1 and RED 0). -/
def rmOnePlus : Room :=
  { rmOneRoom with
    players := rmOneRoom.players ++ [("p2",
      { id := "p2", team := Team.RED, isBot := false, isHost := false,
        name := none })] }

/-- `rmOne` after `"p2"` joins: the registry holding `rmOnePlus`. -/
def rmOneJoined : RM :=
  (joinRoom rmOne "AAAA" "p2").1

/-- The single room of `rmScenario1`, written out. -/
def scenario1Room : Room :=
  { id := "AAAA", hostId := "p1",
    players :=
      [("p1", { id := "p1", team := Team.BLUE, isBot := false,
                isHost := true, name := none }),
       ("p2", { id := "p2", team := Team.RED, isBot := false,
                isHost := false, name := none }),
       ("p3", { id := "p3", team := Team.BLUE, isBot := false,
                isHost := false, name := none })],
    gameState := "LOBBY",
    settings := { maxPlayers := 4, teamSize := 2, map := "orbital" },
    createdAt := 0 }

/-- The single room of `rmShrunk`: same membership, `teamSize` now 1 and
the rebalance loops unable to move anyone (RED is already at capacity). -/
def shrunkRoom : Room :=
  { scenario1Room with
    settings := { maxPlayers := 2, teamSize := 1, map := "orbital" } }

/-! ### Association-list lemmas -/

theorem objGet_objSet_self (m : List (String × α)) (k : String) (v : α) :
    objGet (objSet m k v) k = some v := by
  induction m with
  | nil => simp [objSet, objGet]
  | cons a m ih =>
      by_cases h : a.1 = k <;> simp [objSet, objGet, h, ih]

theorem objGet_objSet_ne (m : List (String × α)) (k : String) (v : α)
    {c : String} (h : c ≠ k) : objGet (objSet m k v) c = objGet m c := by
  have hkc : k ≠ c := fun hh => h hh.symm
  induction m with
  | nil => simp [objSet, objGet, hkc]
  | cons a m ih =>
      by_cases ha : a.1 = k
      · have hac : a.1 ≠ c := by rw [ha]; exact hkc
        simp only [objSet, ha, if_true, objGet, hkc, if_false, hac]
      · simp only [objSet, ha, if_false, objGet]
        by_cases hc : a.1 = c <;> simp [hc, ih]

theorem mem_objSet {m : List (String × α)} {k : String} {v : α}
    {kv : String × α} (h : kv ∈ objSet m k v) :
    kv = (k, v) ∨ kv ∈ m := by
  induction m with
  | nil => simpa [objSet] using h
  | cons a m ih =>
      by_cases ha : a.1 = k
      · simp only [objSet, ha, if_true] at h
        rcases List.mem_cons.mp h with h1 | h1
        · exact Or.inl h1
        · exact Or.inr (List.mem_cons_of_mem a h1)
      · simp only [objSet, ha, if_false] at h
        rcases List.mem_cons.mp h with h1 | h1
        · exact Or.inr (h1 ▸ List.mem_cons_self a m)
        · rcases ih h1 with h2 | h2
          · exact Or.inl h2
          · exact Or.inr (List.mem_cons_of_mem a h2)

theorem objGet_eq_some_mem {m : List (String × α)} {k : String} {v : α}
    (h : objGet m k = some v) : (k, v) ∈ m := by
  induction m with
  | nil => simp [objGet] at h
  | cons a m ih =>
      obtain ⟨a1, a2⟩ := a
      by_cases ha : a1 = k
      · subst ha
        have h2 : some a2 = some v := by simpa [objGet] using h
        injection h2 with h3
        rw [← h3]
        exact List.mem_cons_self _ m
      · have h2 : objGet m k = some v := by simpa [objGet, ha] using h
        exact List.mem_cons_of_mem _ (ih h2)

theorem objGet_eq_none_iff (m : List (String × α)) (k : String) :
    objGet m k = none ↔ ∀ kv ∈ m, (kv : String × α).1 ≠ k := by
  induction m with
  | nil => simp [objGet]
  | cons a m ih =>
      by_cases ha : a.1 = k <;> simp [objGet, ha, ih]

theorem mem_objDelete {m : List (String × α)} {k : String}
    {kv : String × α} (h : kv ∈ objDelete m k) : kv ∈ m ∧ kv.1 ≠ k := by
  induction m with
  | nil => simp [objDelete] at h
  | cons a m ih =>
      by_cases ha : a.1 = k
      · simp only [objDelete, ha, if_true] at h
        exact ⟨List.mem_cons_of_mem a (ih h).1, (ih h).2⟩
      · simp only [objDelete, ha, if_false] at h
        rcases List.mem_cons.mp h with h1 | h1
        · exact ⟨h1 ▸ List.mem_cons_self a m, h1 ▸ ha⟩
        · exact ⟨List.mem_cons_of_mem a (ih h1).1, (ih h1).2⟩

theorem mem_objUpdate {m : List (String × α)} {k : String} {f : α → α}
    {kv : String × α} (h : kv ∈ objUpdate m k f) :
    (∃ q, (kv.1, q) ∈ m ∧ kv.2 = f q ∧ kv.1 = k) ∨ kv ∈ m := by
  induction m with
  | nil => simp [objUpdate] at h
  | cons a m ih =>
      obtain ⟨a1, a2⟩ := a
      by_cases ha : a1 = k
      · have h' : kv = (a1, f a2) ∨ kv ∈ m := by
          simpa [objUpdate, ha] using h
        rcases h' with h1 | h1
        · left
          refine ⟨a2, ?_, ?_, ?_⟩
          · rw [h1]; exact List.mem_cons_self _ m
          · rw [h1]
          · rw [h1]; exact ha
        · exact Or.inr (List.mem_cons_of_mem _ h1)
      · have h' : kv = (a1, a2) ∨ kv ∈ objUpdate m k f := by
          simpa [objUpdate, ha] using h
        rcases h' with h1 | h1
        · exact Or.inr (h1 ▸ List.mem_cons_self _ m)
        · rcases ih h1 with ⟨q, hq, hfq, hk⟩ | h2
          · exact Or.inl ⟨q, List.mem_cons_of_mem _ hq, hfq, hk⟩
          · exact Or.inr (List.mem_cons_of_mem _ h2)

theorem objGet_objUpdate_self (m : List (String × α)) (k : String)
    (f : α → α) : objGet (objUpdate m k f) k = (objGet m k).map f := by
  induction m with
  | nil => simp [objUpdate, objGet]
  | cons a m ih =>
      by_cases ha : a.1 = k <;> simp [objUpdate, objGet, ha, ih]

theorem objKeys_objUpdate (m : List (String × α)) (k : String) (f : α → α) :
    objKeys (objUpdate m k f) = objKeys m := by
  induction m with
  | nil => rfl
  | cons a m ih =>
      by_cases ha : a.1 = k <;> simp [objUpdate, objKeys, ha] <;>
        simpa [objKeys] using ih

theorem objKeys_objSet_of_get_none (m : List (String × α)) (k : String)
    (v : α) (h : objGet m k = none) :
    objKeys (objSet m k v) = objKeys m ++ [k] := by
  induction m with
  | nil => simp [objSet, objKeys]
  | cons a m ih =>
      by_cases ha : a.1 = k
      · simp [objGet, ha] at h
      · simp only [objGet, ha, if_false] at h
        simp [objSet, objKeys, ha] at ih ⊢
        simpa [objKeys] using ih h

theorem objKeys_objSet_of_get_some (m : List (String × α)) (k : String)
    (v : α) {q : α} (h : objGet m k = some q) :
    objKeys (objSet m k v) = objKeys m := by
  induction m with
  | nil => simp [objGet] at h
  | cons a m ih =>
      obtain ⟨a1, a2⟩ := a
      by_cases ha : a1 = k
      · subst ha
        simp [objSet, objKeys]
      · have h2 : objGet m k = some q := by simpa [objGet, ha] using h
        have h3 := ih h2
        simp only [objKeys] at h3
        simp [objSet, objKeys, ha, h3]

theorem objDelete_sublist (m : List (String × α)) (k : String) :
    (objDelete m k).Sublist m := by
  induction m with
  | nil => simp [objDelete]
  | cons a m ih =>
      by_cases ha : a.1 = k
      · simp only [objDelete, ha, if_true]
        exact List.Sublist.cons _ ih
      · simp only [objDelete, ha, if_false]
        exact List.Sublist.cons₂ _ ih

theorem objKeys_objDelete_sublist (m : List (String × α)) (k : String) :
    (objKeys (objDelete m k)).Sublist (objKeys m) := by
  simpa [objKeys] using List.Sublist.map (fun kv => kv.1) (objDelete_sublist m k)

theorem length_objUpdate (m : List (String × α)) (k : String) (f : α → α) :
    (objUpdate m k f).length = m.length := by
  induction m with
  | nil => rfl
  | cons a m ih =>
      by_cases ha : a.1 = k <;> simp [objUpdate, ha, ih]

theorem objSet_objSet (m : List (String × α)) (k : String) (v v' : α) :
    objSet (objSet m k v) k v' = objSet m k v' := by
  induction m with
  | nil => simp [objSet]
  | cons a m ih =>
      by_cases ha : a.1 = k <;> simp [objSet, ha, ih]

theorem objGet_objDelete_self (m : List (String × α)) (k : String) :
    objGet (objDelete m k) k = none := by
  induction m with
  | nil => simp [objDelete, objGet]
  | cons a m ih =>
      by_cases ha : a.1 = k <;> simp [objDelete, objGet, ha, ih]

theorem objGet_objDelete_ne (m : List (String × α)) (k : String)
    {c : String} (h : c ≠ k) : objGet (objDelete m k) c = objGet m c := by
  induction m with
  | nil => rfl
  | cons a m ih =>
      simp only [objDelete, objGet]
      by_cases ha : a.1 = k
      · rw [if_pos ha]
        have hac : a.1 ≠ c := fun hh => h ((ha.symm.trans hh).symm)
        rw [if_neg hac]
        exact ih
      · rw [if_neg ha]
        simp only [objGet]
        by_cases hc : a.1 = c
        · rw [if_pos hc, if_pos hc]
        · rw [if_neg hc, if_neg hc]
          exact ih

theorem countP_objSet_of_get_none (m : List (String × α)) (k : String)
    (v : α) (p : String × α → Bool) (h : objGet m k = none) :
    (objSet m k v).countP p = m.countP p + (if p (k, v) then 1 else 0) := by
  induction m with
  | nil => simp [objSet, List.countP_cons]
  | cons a m ih =>
      obtain ⟨a1, a2⟩ := a
      by_cases ha : a1 = k
      · subst ha
        simp [objGet] at h
      · have h2 : objGet m k = none := by simpa [objGet, ha] using h
        simp only [objSet, ha, if_false, List.countP_cons, ih h2]
        omega

theorem countP_objSet_of_get_some (m : List (String × α)) (k : String)
    (v : α) {q : α} (p : String × α → Bool) (h : objGet m k = some q) :
    (objSet m k v).countP p + (if p (k, q) then 1 else 0) =
    m.countP p + (if p (k, v) then 1 else 0) := by
  induction m with
  | nil => simp [objGet] at h
  | cons a m ih =>
      obtain ⟨a1, a2⟩ := a
      by_cases ha : a1 = k
      · subst ha
        have h2 : a2 = q := by simpa [objGet] using h
        subst h2
        simp only [objSet, eq_self_iff_true, if_true, List.countP_cons]
        omega
      · have h2 : objGet m k = some q := by simpa [objGet, ha] using h
        simp only [objSet, ha, if_false, List.countP_cons]
        have h3 := ih h2
        cases hpa : p (a1, a2) <;> simp [hpa] <;> omega

theorem countP_objUpdate_of_get_some (m : List (String × α)) (k : String)
    (f : α → α) {q : α} (p : String × α → Bool) (h : objGet m k = some q) :
    (objUpdate m k f).countP p + (if p (k, q) then 1 else 0) =
    m.countP p + (if p (k, f q) then 1 else 0) := by
  induction m with
  | nil => simp [objGet] at h
  | cons a m ih =>
      obtain ⟨a1, a2⟩ := a
      by_cases ha : a1 = k
      · subst ha
        have h2 : a2 = q := by simpa [objGet] using h
        subst h2
        simp only [objUpdate, eq_self_iff_true, if_true, List.countP_cons]
        omega
      · have h2 : objGet m k = some q := by simpa [objGet, ha] using h
        simp only [objUpdate, ha, if_false, List.countP_cons]
        have h3 := ih h2
        cases hpa : p (a1, a2) <;> simp [hpa] <;> omega

theorem length_values_filter_eq_countP (m : List (String × α))
    (p : α → Bool) :
    ((objValues m).filter p).length = m.countP (fun kv => p kv.2) := by
  induction m with
  | nil => rfl
  | cons a m ih =>
      simp only [objValues, List.map_cons, List.filter_cons,
        List.countP_cons] at ih ⊢
      cases hp : p a.2 <;> simp [hp, ih]

theorem teamCount_eq_countP (room : Room) (t : Team) :
    teamCount room t = room.players.countP (fun kv => kv.2.team == t) := by
  unfold teamCount
  exact length_values_filter_eq_countP room.players (fun pl => pl.team == t)

theorem countP_team_partition (m : List (String × Player)) :
    m.countP (fun kv => kv.2.team == Team.BLUE) +
    m.countP (fun kv => kv.2.team == Team.RED) = m.length := by
  induction m with
  | nil => rfl
  | cons a m ih =>
      simp only [List.countP_cons, List.length_cons]
      cases h : a.2.team <;> simp [h] <;> omega

theorem objKeys_length (m : List (String × α)) :
    (objKeys m).length = m.length := by
  simp [objKeys]

/-! ### Lemmas about the rebalance loop -/

theorem drainFuel_perm (t : Int) (fuel : Nat) (src dst : List String) :
    ((drainFuel t fuel src dst).1 ++ (drainFuel t fuel src dst).2).Perm
      (src ++ dst) := by
  induction fuel generalizing src dst with
  | zero => simp [drainFuel]
  | succ fuel ih =>
      simp only [drainFuel]
      split
      · cases src with
        | nil =>
            dsimp only
            exact List.Perm.refl _
        | cons a l =>
            dsimp only
            have hne : a :: l ≠ [] := List.cons_ne_nil a l
            have h1 : ((a :: l).dropLast ++
                (dst ++ [(a :: l).getLast hne])).Perm
                ((a :: l).dropLast ++ ([(a :: l).getLast hne] ++ dst)) :=
              List.Perm.append_left _ List.perm_append_comm
            have h2 : (a :: l).dropLast ++ ([(a :: l).getLast hne] ++ dst) =
                (a :: l) ++ dst := by
              rw [← List.append_assoc, List.dropLast_append_getLast hne]
            rw [h2] at h1
            exact (ih _ _).trans h1
      · exact List.Perm.refl _

theorem drainFuel_post (t : Int) (fuel : Nat) (src dst : List String)
    (hfuel : src.length ≤ fuel) :
    ((drainFuel t fuel src dst).1.length : Int) ≤ t ∨
    ((drainFuel t fuel src dst).2.length : Int) ≥ t := by
  induction fuel generalizing src dst with
  | zero =>
      have hs : src.length = 0 := Nat.le_zero.mp hfuel
      simp only [drainFuel]
      omega
  | succ fuel ih =>
      simp only [drainFuel]
      split
      · rename_i hcond
        cases src with
        | nil =>
            dsimp only
            right
            have h1 := hcond.1
            simp only [List.length_nil, Nat.cast_zero] at h1
            omega
        | cons a l =>
            dsimp only
            apply ih
            have : (a :: l).dropLast.length = l.length := by
              simp [List.length_dropLast]
            rw [this]
            simp only [List.length_cons] at hfuel
            omega
      · rename_i hcond
        push_neg at hcond
        by_cases hgt : ((src.length : Int) ≤ t)
        · exact Or.inl hgt
        · exact Or.inr (hcond (by omega))

theorem drainFuel_dst_le (t : Int) (fuel : Nat) (src dst : List String) :
    ((drainFuel t fuel src dst).2.length : Int) ≤ dst.length ∨
    ((drainFuel t fuel src dst).2.length : Int) ≤ t := by
  induction fuel generalizing src dst with
  | zero => simp [drainFuel]
  | succ fuel ih =>
      simp only [drainFuel]
      split
      · rename_i hcond
        cases src with
        | nil =>
            dsimp only
            simp
        | cons a l =>
            dsimp only
            rcases ih ((a :: l).dropLast)
                (dst ++ [(a :: l).getLast (List.cons_ne_nil a l)]) with h | h
            · right
              refine le_trans h ?_
              simp only [List.length_append, List.length_cons,
                List.length_nil]
              have h2 := hcond.2
              push_cast
              omega
            · exact Or.inr h
      · simp

theorem drain_perm (t : Int) (src dst : List String) :
    ((drain t src dst).1 ++ (drain t src dst).2).Perm (src ++ dst) :=
  drainFuel_perm t src.length src dst

theorem drain_post (t : Int) (src dst : List String) :
    ((drain t src dst).1.length : Int) ≤ t ∨
    ((drain t src dst).2.length : Int) ≥ t :=
  drainFuel_post t src.length src dst (le_refl _)

theorem drain_dst_le (t : Int) (src dst : List String) :
    ((drain t src dst).2.length : Int) ≤ dst.length ∨
    ((drain t src dst).2.length : Int) ≤ t :=
  drainFuel_dst_le t src.length src dst

theorem team_ids_partition (room : Room) :
    (teamIds room Team.BLUE ++ teamIds room Team.RED).Perm
      (objKeys room.players) := by
  unfold teamIds
  have hred : room.players.filter (fun kv => kv.2.team == Team.RED) =
      room.players.filter (fun kv => !(kv.2.team == Team.BLUE)) := by
    apply List.filter_congr
    intro kv _
    cases h : kv.2.team <;> simp [h]
  rw [hred, ← List.map_append]
  simpa [objKeys] using
    List.Perm.map (fun kv : String × Player => kv.1)
      (List.filter_append_perm (fun kv => kv.2.team == Team.BLUE) room.players)

theorem rebalanceFinal_perm (room : Room) :
    ((rebalanceFinal room).1 ++ (rebalanceFinal room).2).Perm
      (objKeys room.players) := by
  unfold rebalanceFinal
  have h1 := drain_perm room.settings.teamSize (teamIds room Team.BLUE)
    (teamIds room Team.RED)
  set p1 := drain room.settings.teamSize (teamIds room Team.BLUE)
    (teamIds room Team.RED) with hp1
  have h2 := drain_perm room.settings.teamSize p1.2 p1.1
  refine h2.trans ?_
  refine List.perm_append_comm.trans ?_
  exact h1.trans (team_ids_partition room)

theorem rebalanceFinal_lengths (room : Room)
    (hn : (room.players.length : Int) ≤ room.settings.teamSize * 2) :
    ((rebalanceFinal room).1.length : Int) ≤ room.settings.teamSize ∧
    ((rebalanceFinal room).2.length : Int) ≤ room.settings.teamSize := by
  have hperm := rebalanceFinal_perm room
  have hlen := hperm.length_eq
  simp only [List.length_append, objKeys_length] at hlen
  set t := room.settings.teamSize with ht
  set p1 := drain t (teamIds room Team.BLUE) (teamIds room Team.RED) with hp1
  have hdef : rebalanceFinal room = drain t p1.2 p1.1 := rfl
  rw [hdef] at hlen ⊢
  have hpost2 := drain_post t p1.2 p1.1
  have hdle2 := drain_dst_le t p1.2 p1.1
  have hsum2 := (drain_perm t p1.2 p1.1).length_eq
  simp only [List.length_append] at hsum2
  have hpost1 := drain_post t (teamIds room Team.BLUE) (teamIds room Team.RED)
  have hsum1 :=
    (drain_perm t (teamIds room Team.BLUE) (teamIds room Team.RED)).length_eq
  simp only [List.length_append] at hsum1
  rw [← hp1] at hpost1 hsum1
  omega

theorem countP_mem_eq_length {keys sub : List String}
    (hsub : ∀ x ∈ sub, x ∈ keys) (hnd : keys.Nodup) (hnds : sub.Nodup) :
    keys.countP (fun x => decide (x ∈ sub)) = sub.length := by
  rw [List.countP_eq_length_filter]
  have hperm : (keys.filter (fun x => decide (x ∈ sub))).Perm sub := by
    apply (List.perm_ext_iff_of_nodup (hnd.filter _) hnds).mpr
    intro x
    simp only [List.mem_filter, decide_eq_true_eq]
    exact ⟨fun hx => hx.2, fun hx => ⟨hsub x hx, hx⟩⟩
  exact hperm.length_eq

theorem teamCount_rebalanceTeams (room : Room)
    (hnd : (objKeys room.players).Nodup) :
    teamCount (rebalanceTeams room) Team.BLUE =
      (rebalanceFinal room).2.length ∧
    teamCount (rebalanceTeams room) Team.RED =
      (rebalanceFinal room).1.length := by
  have hperm := rebalanceFinal_perm room
  have hnd12 := hperm.symm.nodup hnd
  rcases List.nodup_append.mp hnd12 with ⟨hnd1, hnd2, hdisj⟩
  have hcover : ∀ kv ∈ room.players,
      kv.1 ∈ (rebalanceFinal room).1 ∨ kv.1 ∈ (rebalanceFinal room).2 := by
    intro kv hkv
    have hk : kv.1 ∈ objKeys room.players := List.mem_map.mpr ⟨kv, hkv, rfl⟩
    have := hperm.mem_iff.mpr hk
    simpa [List.mem_append] using this
  have hsub1 : ∀ x ∈ (rebalanceFinal room).1, x ∈ objKeys room.players :=
    fun x hx => hperm.subset (List.mem_append.mpr (Or.inl hx))
  have hsub2 : ∀ x ∈ (rebalanceFinal room).2, x ∈ objKeys room.players :=
    fun x hx => hperm.subset (List.mem_append.mpr (Or.inr hx))
  have hk2 : room.players.countP
        (fun kv => decide (kv.1 ∈ (rebalanceFinal room).2)) =
      (objKeys room.players).countP
        (fun x => decide (x ∈ (rebalanceFinal room).2)) := by
    simp only [objKeys]
    rw [List.countP_map]
    rfl
  have hk1 : room.players.countP
        (fun kv => decide (kv.1 ∈ (rebalanceFinal room).1)) =
      (objKeys room.players).countP
        (fun x => decide (x ∈ (rebalanceFinal room).1)) := by
    simp only [objKeys]
    rw [List.countP_map]
    rfl
  constructor
  · rw [teamCount_eq_countP]
    unfold rebalanceTeams
    simp only [List.countP_map]
    have hcongr : room.players.countP ((fun kv : String × Player =>
          kv.2.team == Team.BLUE) ∘ (fun kv =>
            if kv.1 ∈ (rebalanceFinal room).2 then
              (kv.1, { kv.2 with team := Team.BLUE })
            else if kv.1 ∈ (rebalanceFinal room).1 then
              (kv.1, { kv.2 with team := Team.RED })
            else kv)) =
        room.players.countP (fun kv => decide (kv.1 ∈ (rebalanceFinal room).2)) := by
      apply List.countP_congr
      intro kv hkv
      simp only [Function.comp_apply]
      by_cases h2 : kv.1 ∈ (rebalanceFinal room).2
      · simp [h2]
      · by_cases h1 : kv.1 ∈ (rebalanceFinal room).1
        · simp [h2, h1]
        · rcases hcover kv hkv with h | h
          · exact absurd h h1
          · exact absurd h h2
    rw [hcongr, hk2]
    exact countP_mem_eq_length hsub2 hnd hnd2
  · rw [teamCount_eq_countP]
    unfold rebalanceTeams
    simp only [List.countP_map]
    have hcongr : room.players.countP ((fun kv : String × Player =>
          kv.2.team == Team.RED) ∘ (fun kv =>
            if kv.1 ∈ (rebalanceFinal room).2 then
              (kv.1, { kv.2 with team := Team.BLUE })
            else if kv.1 ∈ (rebalanceFinal room).1 then
              (kv.1, { kv.2 with team := Team.RED })
            else kv)) =
        room.players.countP (fun kv => decide (kv.1 ∈ (rebalanceFinal room).1)) := by
      apply List.countP_congr
      intro kv hkv
      simp only [Function.comp_apply]
      by_cases h2 : kv.1 ∈ (rebalanceFinal room).2
      · have h1 : kv.1 ∉ (rebalanceFinal room).1 := fun hin => hdisj hin h2
        simp [h2, h1]
      · by_cases h1 : kv.1 ∈ (rebalanceFinal room).1
        · simp [h2, h1]
        · rcases hcover kv hkv with h | h
          · exact absurd h h1
          · exact absurd h h2
    rw [hcongr, hk1]
    exact countP_mem_eq_length hsub1 hnd hnd1

theorem teamChoiceSpec_eq (b r : Nat) :
    (if b ≤ r then Team.BLUE else Team.RED) = teamChoiceSpec b r := by
  unfold teamChoiceSpec
  split_ifs <;> first | rfl | omega

theorem memberView_rebalanceTeams (room : Room) :
    memberView (rebalanceTeams room) = memberView room := by
  unfold rebalanceTeams memberView
  simp only [List.map_map]
  apply List.map_congr_left
  intro kv _
  simp only [Function.comp_apply]
  split_ifs <;> rfl

theorem objKeys_map_entry {g : String × α → String × α}
    (hg : ∀ kv, (g kv).1 = kv.1) (m : List (String × α)) :
    objKeys (m.map g) = objKeys m := by
  simp only [objKeys, List.map_map]
  exact List.map_congr_left (fun a _ => hg a)

theorem objKeys_rebalanceTeams (room : Room) :
    objKeys (rebalanceTeams room).players = objKeys room.players := by
  unfold rebalanceTeams
  apply objKeys_map_entry
  intro kv
  split_ifs <;> rfl

theorem addPlayer_entry_caps (room : Room) (pid : String) (hostFlag : Bool)
    (hb : (teamCount room Team.BLUE : Int) ≤ room.settings.teamSize)
    (hr : (teamCount room Team.RED : Int) ≤ room.settings.teamSize)
    (hlen : (room.players.length : Int) < room.settings.teamSize * 2) :
    ((objSet room.players pid
      { id := pid,
        team := if teamCount room Team.BLUE ≤ teamCount room Team.RED
                then Team.BLUE else Team.RED,
        isBot := false, isHost := hostFlag, name := none }).countP
        (fun kv => kv.2.team == Team.BLUE) : Int) ≤ room.settings.teamSize ∧
    ((objSet room.players pid
      { id := pid,
        team := if teamCount room Team.BLUE ≤ teamCount room Team.RED
                then Team.BLUE else Team.RED,
        isBot := false, isHost := hostFlag, name := none }).countP
        (fun kv => kv.2.team == Team.RED) : Int) ≤ room.settings.teamSize := by
  have hpart := countP_team_partition room.players
  rw [teamCount_eq_countP] at hb
  rw [teamCount_eq_countP] at hr
  by_cases hble : teamCount room Team.BLUE ≤ teamCount room Team.RED
  · rw [teamCount_eq_countP, teamCount_eq_countP] at hble
    simp only [teamCount_eq_countP, hble, if_true]
    cases hq : objGet room.players pid with
    | none =>
        have cB := countP_objSet_of_get_none room.players pid
          { id := pid, team := Team.BLUE, isBot := false,
            isHost := hostFlag, name := none }
          (fun kv => kv.2.team == Team.BLUE) hq
        have cR := countP_objSet_of_get_none room.players pid
          { id := pid, team := Team.BLUE, isBot := false,
            isHost := hostFlag, name := none }
          (fun kv => kv.2.team == Team.RED) hq
        simp only [show ((Team.BLUE == Team.BLUE) = true) from rfl,
          if_true] at cB
        simp at cR
        omega
    | some q =>
        have cB := countP_objSet_of_get_some room.players pid
          { id := pid, team := Team.BLUE, isBot := false,
            isHost := hostFlag, name := none }
          (fun kv => kv.2.team == Team.BLUE) hq
        have cR := countP_objSet_of_get_some room.players pid
          { id := pid, team := Team.BLUE, isBot := false,
            isHost := hostFlag, name := none }
          (fun kv => kv.2.team == Team.RED) hq
        cases hqt : q.team <;> simp [hqt] at cB cR <;> omega
  · rw [teamCount_eq_countP, teamCount_eq_countP] at hble
    simp only [teamCount_eq_countP, hble, if_false]
    cases hq : objGet room.players pid with
    | none =>
        have cB := countP_objSet_of_get_none room.players pid
          { id := pid, team := Team.RED, isBot := false,
            isHost := hostFlag, name := none }
          (fun kv => kv.2.team == Team.BLUE) hq
        have cR := countP_objSet_of_get_none room.players pid
          { id := pid, team := Team.RED, isBot := false,
            isHost := hostFlag, name := none }
          (fun kv => kv.2.team == Team.RED) hq
        simp at cB
        simp at cR
        omega
    | some q =>
        have cB := countP_objSet_of_get_some room.players pid
          { id := pid, team := Team.RED, isBot := false,
            isHost := hostFlag, name := none }
          (fun kv => kv.2.team == Team.BLUE) hq
        have cR := countP_objSet_of_get_some room.players pid
          { id := pid, team := Team.RED, isBot := false,
            isHost := hostFlag, name := none }
          (fun kv => kv.2.team == Team.RED) hq
        cases hqt : q.team <;> simp [hqt] at cB cR <;> omega

theorem joinRoom_caps (rm : RM) (roomId playerId : String) (room : Room)
    (h : objGet rm.rooms roomId = some room)
    (hmax : room.settings.maxPlayers = room.settings.teamSize * 2)
    (hb : (teamCount room Team.BLUE : Int) ≤ room.settings.teamSize)
    (hr : (teamCount room Team.RED : Int) ≤ room.settings.teamSize) :
    ∀ room', objGet (joinRoom rm roomId playerId).1.rooms roomId = some room' →
      (teamCount room' Team.BLUE : Int) ≤ room'.settings.teamSize ∧
      (teamCount room' Team.RED : Int) ≤ room'.settings.teamSize := by
  intro room' h'
  by_cases hg : room.gameState = "LOBBY"
  · by_cases hfull : ((objKeys room.players).length : Int) ≥
        room.settings.maxPlayers
    · have hres : (joinRoom rm roomId playerId).1 = rm := by
        simp [joinRoom, h, hg, hfull]
      rw [hres, h] at h'
      injection h' with h'
      rw [← h']
      exact ⟨hb, hr⟩
    · have hres : (joinRoom rm roomId playerId).1 =
          addPlayerToRoom rm roomId playerId false := by
        simp [joinRoom, h, hg, hfull]
      rw [hres] at h'
      simp only [addPlayerToRoom, h, objGet_objSet_self,
        Option.some.injEq] at h'
      have hlen : (room.players.length : Int) < room.settings.teamSize * 2 := by
        rw [objKeys_length] at hfull
        omega
      have hcap := addPlayer_entry_caps room playerId false hb hr hlen
      rw [← h']
      simp only [teamCount_eq_countP] at hcap ⊢
      exact hcap
  · have hres : (joinRoom rm roomId playerId).1 = rm := by
      simp [joinRoom, h, hg]
    rw [hres, h] at h'
    injection h' with h'
    rw [← h']
    exact ⟨hb, hr⟩

theorem switchTeam_eq (rm : RM) (roomId playerId : String)
    (tgt : Option Team) (room : Room) (player : Player)
    (h : objGet rm.rooms roomId = some room)
    (hp : objGet room.players playerId = some player) :
    switchTeam rm roomId playerId tgt =
      (if player.team =
          (match tgt with
           | some tt => tt
           | none => if player.team = Team.BLUE then Team.RED else Team.BLUE)
       then (rm, SwitchOutcome.success player)
       else if (teamCount room
            (match tgt with
             | some tt => tt
             | none =>
                 if player.team = Team.BLUE then Team.RED
                 else Team.BLUE) : Int) ≥ room.settings.teamSize then
         (rm, SwitchOutcome.teamFull)
       else
         (RM.mk (objSet rm.rooms roomId
            (Room.mk room.id room.hostId
              (objUpdate room.players playerId (fun p =>
                { p with team :=
                    (match tgt with
                     | some tt => tt
                     | none =>
                         if player.team = Team.BLUE then Team.RED
                         else Team.BLUE) }))
              room.gameState room.settings room.createdAt)),
          SwitchOutcome.success
            { player with team :=
                (match tgt with
                 | some tt => tt
                 | none =>
                     if player.team = Team.BLUE then Team.RED
                     else Team.BLUE) })) := by
  simp only [switchTeam, h, hp]

theorem switchTeam_core_caps (rm : RM) (roomId playerId : String)
    (room : Room) (player : Player) (nt : Team) (room' : Room)
    (h : objGet rm.rooms roomId = some room)
    (hp : objGet room.players playerId = some player)
    (hb : (teamCount room Team.BLUE : Int) ≤ room.settings.teamSize)
    (hr : (teamCount room Team.RED : Int) ≤ room.settings.teamSize)
    (h' : objGet
      ((if player.team = nt then (rm, SwitchOutcome.success player)
        else if (teamCount room nt : Int) ≥ room.settings.teamSize then
          (rm, SwitchOutcome.teamFull)
        else
          (RM.mk (objSet rm.rooms roomId
             (Room.mk room.id room.hostId
               (objUpdate room.players playerId (fun p =>
                 { p with team := nt }))
               room.gameState room.settings room.createdAt)),
           SwitchOutcome.success { player with team := nt })) :
        RM × SwitchOutcome).1.rooms roomId = some room') :
    (teamCount room' Team.BLUE : Int) ≤ room'.settings.teamSize ∧
    (teamCount room' Team.RED : Int) ≤ room'.settings.teamSize := by
  by_cases hsame : player.team = nt
  · rw [if_pos hsame] at h'
    rw [show ((rm, SwitchOutcome.success player).1 : RM) = rm from rfl,
      h] at h'
    injection h' with h'
    rw [← h']
    exact ⟨hb, hr⟩
  · rw [if_neg hsame] at h'
    by_cases hfull : ((teamCount room nt : Int) ≥ room.settings.teamSize)
    · rw [if_pos hfull] at h'
      rw [show ((rm, SwitchOutcome.teamFull).1 : RM) = rm from rfl,
        h] at h'
      injection h' with h'
      rw [← h']
      exact ⟨hb, hr⟩
    · rw [if_neg hfull] at h'
      have h'' : objGet (objSet rm.rooms roomId
          (Room.mk room.id room.hostId
            (objUpdate room.players playerId
              (fun p => { p with team := nt }))
            room.gameState room.settings room.createdAt)) roomId =
          some room' := h'
      rw [objGet_objSet_self] at h''
      injection h'' with h''
      rw [← h'']
      simp only [teamCount_eq_countP]
      have cB := countP_objUpdate_of_get_some room.players playerId
        (fun p => { p with team := nt })
        (fun kv => kv.2.team == Team.BLUE) hp
      have cR := countP_objUpdate_of_get_some room.players playerId
        (fun p => { p with team := nt })
        (fun kv => kv.2.team == Team.RED) hp
      rw [teamCount_eq_countP] at hb hr
      rw [teamCount_eq_countP] at hfull
      cases hntv : nt <;> cases hptv : player.team <;>
        simp [hntv, hptv] at cB cR hfull hsame ⊢ <;> omega

theorem switchTeam_caps (rm : RM) (roomId playerId : String)
    (tgt : Option Team) (room : Room)
    (h : objGet rm.rooms roomId = some room)
    (hb : (teamCount room Team.BLUE : Int) ≤ room.settings.teamSize)
    (hr : (teamCount room Team.RED : Int) ≤ room.settings.teamSize) :
    ∀ room',
      objGet (switchTeam rm roomId playerId tgt).1.rooms roomId = some room' →
      (teamCount room' Team.BLUE : Int) ≤ room'.settings.teamSize ∧
      (teamCount room' Team.RED : Int) ≤ room'.settings.teamSize := by
  intro room' h'
  cases hp : objGet room.players playerId with
  | none =>
      have hres : (switchTeam rm roomId playerId tgt).1 = rm := by
        simp [switchTeam, h, hp]
      rw [hres, h] at h'
      injection h' with h'
      rw [← h']
      exact ⟨hb, hr⟩
  | some player =>
      rw [switchTeam_eq rm roomId playerId tgt room player h hp] at h'
      exact switchTeam_core_caps rm roomId playerId room player _ room'
        h hp hb hr h'

theorem rebalance_caps (r1 : Room) (hnd : (objKeys r1.players).Nodup)
    (hlen : ((rebalanceTeams r1).players.length : Int) ≤
      (rebalanceTeams r1).settings.teamSize * 2) :
    (teamCount (rebalanceTeams r1) Team.BLUE : Int) ≤
      (rebalanceTeams r1).settings.teamSize ∧
    (teamCount (rebalanceTeams r1) Team.RED : Int) ≤
      (rebalanceTeams r1).settings.teamSize := by
  have hset : (rebalanceTeams r1).settings = r1.settings := rfl
  have hplen : (rebalanceTeams r1).players.length = r1.players.length := by
    unfold rebalanceTeams
    exact List.length_map _ _
  rw [hset, hplen] at hlen
  have hc := teamCount_rebalanceTeams r1 hnd
  have hl := rebalanceFinal_lengths r1 hlen
  rw [hset, hc.1, hc.2]
  exact ⟨hl.2, hl.1⟩

theorem updateSettings_caps (rm : RM) (roomId : String) (s : InSettings)
    (room : Room) (h : objGet rm.rooms roomId = some room)
    (hnd : (objKeys room.players).Nodup) :
    ∀ room',
      objGet (updateSettings rm roomId s).1.rooms roomId = some room' →
      (room'.players.length : Int) ≤ room'.settings.teamSize * 2 →
      (teamCount room' Team.BLUE : Int) ≤ room'.settings.teamSize ∧
      (teamCount room' Team.RED : Int) ≤ room'.settings.teamSize := by
  intro room' h' hlen
  simp only [updateSettings, h, objGet_objSet_self, Option.some.injEq] at h'
  rw [← h'] at hlen ⊢
  exact rebalance_caps _ hnd hlen

/-! ### Host-invariant machinery for the reachability induction -/

theorem hostKeys_map_entry {g : String × Player → String × Player}
    (hg : ∀ kv, (g kv).1 = kv.1 ∧ (g kv).2.isHost = kv.2.isHost)
    (m : List (String × Player)) :
    ((m.map g).filter (fun kv => kv.2.isHost)).map (fun kv => kv.1) =
    (m.filter (fun kv => kv.2.isHost)).map (fun kv => kv.1) := by
  induction m with
  | nil => rfl
  | cons a m ih =>
      rcases hg a with ⟨h1, h2⟩
      simp only [List.map_cons, List.filter_cons, h2]
      cases hh : a.2.isHost <;> simp [hh, h1, ih]

theorem map_fst_eq_singleton {m : List (String × Player)} {x : String}
    (h : m.map (fun kv => kv.1) = [x]) :
    ∃ e, m = [e] ∧ (e : String × Player).1 = x := by
  cases m with
  | nil => simp at h
  | cons a l =>
      simp only [List.map_cons, List.cons.injEq] at h
      rcases h with ⟨h1, h2⟩
      have hl : l = [] := List.map_eq_nil.mp h2
      exact ⟨a, by rw [hl], h1⟩

theorem host_filter_delete_of_host {m : List (String × Player)}
    {hid : String}
    (h : (m.filter (fun kv => kv.2.isHost)).map (fun kv => kv.1) = [hid]) :
    ∀ kv ∈ objDelete m hid, (kv : String × Player).2.isHost = false := by
  intro kv hkv
  rcases mem_objDelete hkv with ⟨hm, hne⟩
  cases hh : kv.2.isHost
  · rfl
  · exfalso
    have h1 : kv ∈ m.filter (fun kv => kv.2.isHost) :=
      List.mem_filter.mpr ⟨hm, hh⟩
    have h2 : kv.1 ∈ (m.filter (fun kv => kv.2.isHost)).map
        (fun kv => kv.1) := List.mem_map.mpr ⟨kv, h1, rfl⟩
    rw [h] at h2
    simp only [List.mem_singleton] at h2
    exact hne h2

theorem filter_objDelete (m : List (String × α)) (k : String)
    (p : String × α → Bool) :
    (objDelete m k).filter p = objDelete (m.filter p) k := by
  induction m with
  | nil => rfl
  | cons a m ih =>
      by_cases ha : a.1 = k
      · simp only [objDelete, ha, if_true, List.filter_cons]
        cases hp : p a <;> simp [hp, ih, objDelete, ha]
      · simp only [objDelete, ha, if_false, List.filter_cons]
        cases hp : p a <;> simp [hp, ih, objDelete, ha]

theorem host_filter_delete_of_ne {m : List (String × Player)}
    {hid pid : String}
    (h : (m.filter (fun kv => kv.2.isHost)).map (fun kv => kv.1) = [hid])
    (hne : hid ≠ pid) :
    ((objDelete m pid).filter (fun kv => kv.2.isHost)).map (fun kv => kv.1) =
      [hid] := by
  rw [filter_objDelete]
  rcases map_fst_eq_singleton h with ⟨e, he, he1⟩
  rw [he]
  have : e.1 ≠ pid := by rw [he1]; exact hne
  simp [objDelete, this, he1, hne]

theorem host_filter_update_first {m : List (String × Player)} {k : String}
    (hall : ∀ kv ∈ m, (kv : String × Player).2.isHost = false)
    (hsome : (objGet m k).isSome = true) :
    ((objUpdate m k (fun p => { p with isHost := true })).filter
      (fun kv => kv.2.isHost)).map (fun kv => kv.1) = [k] := by
  induction m with
  | nil => simp [objGet] at hsome
  | cons a m ih =>
      by_cases ha : a.1 = k
      · have htail : m.filter (fun kv => kv.2.isHost) = [] := by
          rw [List.filter_eq_nil]
          intro kv hkv
          simp [hall kv (List.mem_cons_of_mem a hkv)]
        simp only [objUpdate, ha, if_true, List.filter_cons]
        simp [htail, ha]
      · have ha2 : a.2.isHost = false := hall a (List.mem_cons_self a m)
        have hsome2 : (objGet m k).isSome = true := by
          simpa [objGet, ha] using hsome
        simp only [objUpdate, ha, if_false, List.filter_cons, ha2]
        simp only [Bool.false_eq_true, if_false]
        exact ih (fun kv hkv => hall kv (List.mem_cons_of_mem a hkv)) hsome2

theorem host_filter_objUpdate_preserve {m : List (String × Player)}
    {k : String} {f : Player → Player}
    (hf : ∀ p, (f p).isHost = p.isHost) :
    ((objUpdate m k f).filter (fun kv => kv.2.isHost)).map (fun kv => kv.1) =
    (m.filter (fun kv => kv.2.isHost)).map (fun kv => kv.1) := by
  induction m with
  | nil => rfl
  | cons a m ih =>
      by_cases ha : a.1 = k
      · simp only [objUpdate, ha, if_true, List.filter_cons, hf]
        cases hh : a.2.isHost <;> simp [hh, ha]
      · simp only [objUpdate, ha, if_false, List.filter_cons]
        cases hh : a.2.isHost <;> simp [hh, ih]

theorem host_filter_append (m : List (String × Player)) (e : String × Player)
    (he : e.2.isHost = false) :
    ((m ++ [e]).filter (fun kv => kv.2.isHost)).map (fun kv => kv.1) =
    (m.filter (fun kv => kv.2.isHost)).map (fun kv => kv.1) := by
  rw [List.filter_append]
  have : [e].filter (fun kv => (kv : String × Player).2.isHost) = [] := by
    simp [List.filter_cons, he]
  rw [this, List.append_nil]

theorem objSet_eq_append_of_get_none {m : List (String × α)} {k : String}
    (v : α) (h : objGet m k = none) : objSet m k v = m ++ [(k, v)] := by
  induction m with
  | nil => rfl
  | cons a m ih =>
      by_cases ha : a.1 = k
      · simp [objGet, ha] at h
      · have h2 : objGet m k = none := by simpa [objGet, ha] using h
        simp [objSet, ha, ih h2]

theorem not_mem_keys_of_get_none {m : List (String × α)} {k : String}
    (h : objGet m k = none) : k ∉ objKeys m := by
  intro hk
  rcases List.mem_map.mp hk with ⟨kv, hkv, hrfl⟩
  exact (objGet_eq_none_iff m k).mp h kv hkv hrfl

theorem values_filter_map_id (m : List (String × Player))
    (hids : ∀ kv ∈ m, (kv : String × Player).2.id = kv.1) :
    ((m.map (fun kv => kv.2)).filter (fun p => p.isHost)).map
      (fun p => p.id) =
    (m.filter (fun kv => kv.2.isHost)).map (fun kv => kv.1) := by
  induction m with
  | nil => rfl
  | cons a m ih =>
      have ha := hids a (List.mem_cons_self a m)
      have ihm := ih (fun kv hkv => hids kv (List.mem_cons_of_mem a hkv))
      simp only [List.map_cons, List.filter_cons]
      cases hh : a.2.isHost <;> simp [hh, ha, ihm]

theorem hostValueIds_eq_hostKeys (room : Room)
    (hids : ∀ kv ∈ room.players, (kv : String × Player).2.id = kv.1) :
    hostValueIds room = hostKeys room := by
  unfold hostValueIds hostKeys objValues
  exact values_filter_map_id room.players hids

theorem createRoom_fst (rm : RM) (code hostId : String) (s : InSettings)
    (now : Nat) :
    (createRoom rm code hostId s now).1 =
      RM.mk (objSet rm.rooms code
        (Room.mk code hostId
          [(hostId, Player.mk hostId Team.BLUE false true none)]
          "LOBBY"
          (RoomSettings.mk
            ((match s.teamSize with
              | some v => if v = 0 then 1 else v
              | none => 1) * 2)
            (match s.teamSize with
             | some v => if v = 0 then 1 else v
             | none => 1)
            (match s.map with
             | some mp => if mp = "" then "orbital" else mp
             | none => "orbital"))
          now)) := by
  simp only [createRoom, addPlayerToRoom, objGet_objSet_self]
  rw [objSet_objSet]
  rfl

theorem RegistryWF_createRoom (rm : RM) (code hostId : String)
    (s : InSettings) (now : Nat) (h : RegistryWF rm) :
    RegistryWF (createRoom rm code hostId s now).1 := by
  intro kv hkv
  rw [createRoom_fst] at hkv
  rcases mem_objSet hkv with h1 | h1
  · rw [h1]
    refine ⟨by simp, by simp [objKeys], ?_, ?_⟩
    · intro kv2 hkv2
      simp only [List.mem_singleton] at hkv2
      rw [hkv2]
    · rfl
  · exact h kv h1

theorem RegistryWF_joinRoom (rm : RM) (roomId playerId : String)
    (h : RegistryWF rm)
    (hfresh : ∀ room, objGet rm.rooms roomId = some room →
      objGet room.players playerId = none) :
    RegistryWF (joinRoom rm roomId playerId).1 := by
  cases hro : objGet rm.rooms roomId with
  | none =>
      have hres : (joinRoom rm roomId playerId).1 = rm := by
        simp [joinRoom, hro]
      rw [hres]
      exact h
  | some room =>
      by_cases hg : room.gameState = "LOBBY"
      · by_cases hfull : ((objKeys room.players).length : Int) ≥
            room.settings.maxPlayers
        · have hres : (joinRoom rm roomId playerId).1 = rm := by
            simp [joinRoom, hro, hg, hfull]
          rw [hres]
          exact h
        · have hres : (joinRoom rm roomId playerId).1 =
              addPlayerToRoom rm roomId playerId false := by
            simp [joinRoom, hro, hg, hfull]
          rw [hres]
          have hpnone := hfresh room hro
          intro kv hkv
          simp only [addPlayerToRoom, hro] at hkv
          rcases mem_objSet hkv with h1 | h1
          · rcases h (roomId, room) (objGet_eq_some_mem hro) with
              ⟨hne, hnd, hids, hhost⟩
            rw [h1]
            have happ := objSet_eq_append_of_get_none
              (m := room.players) (k := playerId)
              { id := playerId,
                team := if teamCount room Team.BLUE ≤ teamCount room Team.RED
                        then Team.BLUE else Team.RED,
                isBot := false, isHost := false, name := none } hpnone
            refine ⟨?_, ?_, ?_, ?_⟩
            · simp [happ]
            · simp only [happ, objKeys, List.map_append]
              rw [List.nodup_append]
              refine ⟨hnd, by simp, ?_⟩
              intro x hx hx2
              simp only [List.map_cons, List.map_nil,
                List.mem_singleton] at hx2
              rw [hx2] at hx
              exact not_mem_keys_of_get_none hpnone hx
            · intro kv2 hkv2
              simp only [happ] at hkv2
              rcases List.mem_append.mp hkv2 with h2 | h2
              · exact hids kv2 h2
              · simp only [List.mem_singleton] at h2
                rw [h2]
            · unfold hostKeys at hhost ⊢
              simp only [happ]
              rw [host_filter_append _ _ (by rfl)]
              exact hhost
          · exact h kv h1
      · have hres : (joinRoom rm roomId playerId).1 = rm := by
          simp [joinRoom, hro, hg]
        rw [hres]
        exact h

theorem RegistryWF_leaveRoom (rm : RM) (roomId playerId : String)
    (h : RegistryWF rm) :
    RegistryWF (leaveRoom rm roomId playerId).1 := by
  cases hro : objGet rm.rooms roomId with
  | none =>
      have hres : (leaveRoom rm roomId playerId).1 = rm := by
        simp [leaveRoom, hro]
      rw [hres]
      exact h
  | some room =>
      rcases h (roomId, room) (objGet_eq_some_mem hro) with
        ⟨hne, hnd, hids, hhost⟩
      by_cases hempty : (objDelete room.players playerId).isEmpty
      · have hres : (leaveRoom rm roomId playerId).1 =
            RM.mk (objDelete rm.rooms roomId) := by
          simp [leaveRoom, hro, hempty]
        rw [hres]
        intro kv hkv
        exact h kv (mem_objDelete hkv).1
      · cases hdel : objDelete room.players playerId with
        | nil => rw [hdel] at hempty; simp at hempty
        | cons e rest =>
            obtain ⟨nid, p0⟩ := e
            have hdnd : (objKeys (objDelete room.players playerId)).Nodup :=
              (objKeys_objDelete_sublist _ _).nodup hnd
            have hdids : ∀ kv ∈ objDelete room.players playerId,
                (kv : String × Player).2.id = kv.1 :=
              fun kv hkv => hids kv (mem_objDelete hkv).1
            by_cases hhostleft : room.hostId = playerId
            · have hres : (leaveRoom rm roomId playerId).1 =
                  RM.mk (objSet rm.rooms roomId
                    (Room.mk room.id nid
                      (objUpdate ((nid, p0) :: rest) nid
                        (fun p => { p with isHost := true }))
                      room.gameState room.settings room.createdAt)) := by
                simp [leaveRoom, hro, hempty, hhostleft, hdel]
              rw [hres]
              intro kv hkv
              rcases mem_objSet hkv with h1 | h1
              · rw [h1]
                have hall : ∀ kv ∈ (nid, p0) :: rest,
                    (kv : String × Player).2.isHost = false := by
                  rw [← hdel]
                  rw [hhostleft] at hhost
                  exact host_filter_delete_of_host hhost
                refine ⟨?_, ?_, ?_, ?_⟩
                · simp [objUpdate]
                · rw [objKeys_objUpdate]
                  rw [hdel] at hdnd
                  exact hdnd
                · intro kv2 hkv2
                  rcases mem_objUpdate hkv2 with ⟨q, hq, hfq, hk⟩ | h2
                  · rw [hfq]
                    have : (q.id : String) = kv2.1 := by
                      have := hdids (kv2.1, q) (by rw [hdel]; exact hq)
                      simpa using this
                    simpa using this
                  · exact hdids kv2 (by rw [hdel]; exact h2)
                · unfold hostKeys
                  apply host_filter_update_first hall
                  simp [objGet]
              · exact h kv h1
            · have hres : (leaveRoom rm roomId playerId).1 =
                  RM.mk (objSet rm.rooms roomId
                    (Room.mk room.id room.hostId
                      (objDelete room.players playerId)
                      room.gameState room.settings room.createdAt)) := by
                simp [leaveRoom, hro, hempty, hhostleft, hdel]
              rw [hres]
              intro kv hkv
              rcases mem_objSet hkv with h1 | h1
              · rw [h1]
                refine ⟨?_, hdnd, hdids, ?_⟩
                · rw [hdel]
                  simp
                · unfold hostKeys at hhost ⊢
                  exact host_filter_delete_of_ne hhost hhostleft
              · exact h kv h1

theorem RegistryWF_switchTeam (rm : RM) (roomId playerId : String)
    (tgt : Option Team) (h : RegistryWF rm) :
    RegistryWF (switchTeam rm roomId playerId tgt).1 := by
  cases hro : objGet rm.rooms roomId with
  | none =>
      have hres : (switchTeam rm roomId playerId tgt).1 = rm := by
        simp [switchTeam, hro]
      rw [hres]
      exact h
  | some room =>
      cases hp : objGet room.players playerId with
      | none =>
          have hres : (switchTeam rm roomId playerId tgt).1 = rm := by
            simp [switchTeam, hro, hp]
          rw [hres]
          exact h
      | some player =>
          rcases h (roomId, room) (objGet_eq_some_mem hro) with
            ⟨hne, hnd, hids, hhost⟩
          have hwf : ∀ nt : Team, RoomWF (Room.mk room.id room.hostId
              (objUpdate room.players playerId
                (fun p => { p with team := nt }))
              room.gameState room.settings room.createdAt) := by
            intro nt
            refine ⟨?_, ?_, ?_, ?_⟩
            · intro hcon
              have := congrArg List.length hcon
              rw [length_objUpdate] at this
              simp at this
              exact hne this
            · rw [objKeys_objUpdate]
              exact hnd
            · intro kv2 hkv2
              rcases mem_objUpdate hkv2 with ⟨q, hq, hfq, hk⟩ | h2
              · rw [hfq]
                have := hids (kv2.1, q) hq
                simpa using this
              · exact hids kv2 h2
            · unfold hostKeys at hhost ⊢
              rw [host_filter_objUpdate_preserve
                (f := fun p => { p with team := nt }) (fun p => rfl)]
              exact hhost
          rw [switchTeam_eq rm roomId playerId tgt room player hro hp]
          have hmain : ∀ nt : Team, RegistryWF
              ((if player.team = nt then (rm, SwitchOutcome.success player)
                else if (teamCount room nt : Int) ≥
                    room.settings.teamSize then
                  (rm, SwitchOutcome.teamFull)
                else
                  (RM.mk (objSet rm.rooms roomId
                     (Room.mk room.id room.hostId
                       (objUpdate room.players playerId (fun p =>
                         { p with team := nt }))
                       room.gameState room.settings room.createdAt)),
                   SwitchOutcome.success { player with team := nt })) :
                RM × SwitchOutcome).1 := by
            intro nt
            by_cases hsame : player.team = nt
            · rw [if_pos hsame]
              exact h
            · rw [if_neg hsame]
              by_cases hfull : ((teamCount room nt : Int) ≥
                  room.settings.teamSize)
              · rw [if_pos hfull]
                exact h
              · rw [if_neg hfull]
                intro kv hkv
                rcases mem_objSet hkv with h1 | h1
                · rw [h1]
                  exact hwf nt
                · exact h kv h1
          exact hmain _

theorem rebalanceTeams_players (r : Room) :
    (rebalanceTeams r).players = r.players.map (fun kv =>
      if kv.1 ∈ (rebalanceFinal r).2 then
        (kv.1, { kv.2 with team := Team.BLUE })
      else if kv.1 ∈ (rebalanceFinal r).1 then
        (kv.1, { kv.2 with team := Team.RED })
      else kv) := rfl

theorem RoomWF_rebalanceTeams (r : Room) (hwf : RoomWF r) :
    RoomWF (rebalanceTeams r) := by
  rcases hwf with ⟨hne, hnd, hids, hhost⟩
  refine ⟨?_, ?_, ?_, ?_⟩
  · rw [rebalanceTeams_players]
    intro hcon
    have := congrArg List.length hcon
    simp only [List.length_map, List.length_nil] at this
    exact hne (List.eq_nil_of_length_eq_zero this)
  · rw [objKeys_rebalanceTeams]
    exact hnd
  · rw [rebalanceTeams_players]
    intro kv2 hkv2
    rcases List.mem_map.mp hkv2 with ⟨a, ha, hrfl⟩
    have hida := hids a ha
    rw [← hrfl]
    split_ifs <;> simpa using hida
  · unfold hostKeys at hhost ⊢
    rw [rebalanceTeams_players]
    rw [hostKeys_map_entry (fun kv => by split_ifs <;> exact ⟨rfl, rfl⟩)]
    exact hhost

theorem RegistryWF_updateSettings (rm : RM) (roomId : String)
    (s : InSettings) (h : RegistryWF rm) :
    RegistryWF (updateSettings rm roomId s).1 := by
  cases hro : objGet rm.rooms roomId with
  | none =>
      have hres : (updateSettings rm roomId s).1 = rm := by
        simp [updateSettings, hro]
      rw [hres]
      exact h
  | some room =>
      rcases h (roomId, room) (objGet_eq_some_mem hro) with
        ⟨hne, hnd, hids, hhost⟩
      intro kv hkv
      simp only [updateSettings, hro] at hkv
      rcases mem_objSet hkv with h1 | h1
      · rw [h1]
        exact RoomWF_rebalanceTeams _ ⟨hne, hnd, hids, hhost⟩
      · exact h kv h1

theorem ReachableFresh_registryWF (rm : RM) (h : ReachableFresh rm) :
    RegistryWF rm := by
  induction h with
  | init => intro kv hkv; simp at hkv
  | create rm code hostId s now _ ih =>
      exact RegistryWF_createRoom rm code hostId s now ih
  | join rm roomId playerId _ hfresh ih =>
      exact RegistryWF_joinRoom rm roomId playerId ih hfresh
  | leave rm roomId playerId _ ih =>
      exact RegistryWF_leaveRoom rm roomId playerId ih
  | switch rm roomId playerId target _ ih =>
      exact RegistryWF_switchTeam rm roomId playerId target ih
  | update rm roomId s _ ih =>
      exact RegistryWF_updateSettings rm roomId s ih

theorem createRoom_frame (rm : RM) (code hostId : String) (s : InSettings)
    (now : Nat) :
    ∀ c, c ≠ code →
      getRoom (createRoom rm code hostId s now).1 c = getRoom rm c := by
  intro c hc
  simp only [createRoom, addPlayerToRoom, getRoom, objGet_objSet_self]
  rw [objGet_objSet_ne _ _ _ hc, objGet_objSet_ne _ _ _ hc]

/-! ### Claim theorems -/

/-- C1 counterexample: in `rmOne` the code `"AAAA"` names an active room
hosted by `"p1"`; a `createRoom` whose generator draws the same code
`"AAAA"` does not regenerate — it replaces that room (`rmCollide` still has
exactly one room, now hosted by `"p2"`, and `"p1"` is in no room), so the
assigned code was not unique among active rooms and an existing active room
was destroyed. -/
theorem C1_counterexample :
    (getRoom rmOne "AAAA").map Room.hostId = some "p1" ∧
    (getPlayerRoom rmOne "p1").isSome = true ∧
    rmCollide.rooms.length = 1 ∧
    (getRoom rmCollide "AAAA").map Room.hostId = some "p2" ∧
    getPlayerRoom rmCollide "p1" = none := by
  decide

/-- C1 (amended): `createRoom` assigns exactly the code produced by the
generator with no uniqueness check: the new room (hosted by the requester)
is installed at that code, replacing any existing room under the same code,
while every room under a different code is untouched. -/
theorem C1_createRoom_unchecked (rm : RM) (code hostId : String)
    (s : InSettings) (now : Nat) :
    (createRoom rm code hostId s now).2 = code ∧
    (∃ room, getRoom (createRoom rm code hostId s now).1 code = some room ∧
       room.hostId = hostId ∧ room.id = code) ∧
    (∀ c, c ≠ code → getRoom (createRoom rm code hostId s now).1 c = getRoom rm c) := by
  refine ⟨rfl, ?_, ?_⟩
  · simp only [createRoom, addPlayerToRoom, getRoom, objGet_objSet_self]
    exact ⟨_, rfl, rfl, rfl⟩
  · exact createRoom_frame rm code hostId s now

/-- Witness for C1 at a concrete collision: recreating code `"AAAA"` over
`rmOne` returns that code and leaves the (absent) room `"QQQQ"` alone. -/
theorem C1_witness :
    (createRoom rmOne "AAAA" "p2" ⟨some 2, none⟩ 0).2 = "AAAA" ∧
    getRoom rmCollide "QQQQ" = getRoom rmOne "QQQQ" := by
  constructor
  · exact (C1_createRoom_unchecked rmOne "AAAA" "p2" ⟨some 2, none⟩ 0).1
  · exact (C1_createRoom_unchecked rmOne "AAAA" "p2" ⟨some 2, none⟩ 0).2.2
      "QQQQ" (by decide)

/-- C3: `joinRoom` fails with `"Room not found"` on an unknown code, with
`"Game already started"` when the room is not in the LOBBY state, with
`"Room full"` when the member count is at least `maxPlayers`, in each case
leaving the registry unchanged; otherwise it succeeds and stores the player
non-host on the team picked by the balancing rule. -/
theorem C3_joinRoom_cases (rm : RM) (roomId playerId : String) :
    (objGet rm.rooms roomId = none →
      joinRoom rm roomId playerId = (rm, JoinOutcome.err "Room not found")) ∧
    (∀ room : Room, objGet rm.rooms roomId = some room →
      room.gameState ≠ "LOBBY" →
      joinRoom rm roomId playerId = (rm, JoinOutcome.err "Game already started")) ∧
    (∀ room : Room, objGet rm.rooms roomId = some room →
      room.gameState = "LOBBY" →
      ((objKeys room.players).length : Int) ≥ room.settings.maxPlayers →
      joinRoom rm roomId playerId = (rm, JoinOutcome.err "Room full")) ∧
    (∀ room : Room, objGet rm.rooms roomId = some room →
      room.gameState = "LOBBY" →
      ((objKeys room.players).length : Int) < room.settings.maxPlayers →
      (joinRoom rm roomId playerId).2 = JoinOutcome.ok ∧
      ∀ room' : Room,
        objGet (joinRoom rm roomId playerId).1.rooms roomId = some room' →
        objGet room'.players playerId = some
          { id := playerId,
            team := if teamCount room Team.BLUE ≤ teamCount room Team.RED
                    then Team.BLUE else Team.RED,
            isBot := false, isHost := false, name := none }) := by
  refine ⟨?_, ?_, ?_, ?_⟩
  · intro h
    simp [joinRoom, h]
  · intro room h hg
    simp [joinRoom, h, hg]
  · intro room h hg hfull
    simp [joinRoom, h, hg, hfull]
  · intro room h hg hlt
    have hnotfull :
        ¬ (((objKeys room.players).length : Int) ≥ room.settings.maxPlayers) :=
      not_le.mpr hlt
    constructor
    · simp [joinRoom, h, hg, hnotfull]
    · intro room' h'
      have hj : (joinRoom rm roomId playerId).1 =
          addPlayerToRoom rm roomId playerId false := by
        simp [joinRoom, h, hg, hnotfull]
      rw [hj] at h'
      simp only [addPlayerToRoom, h, objGet_objSet_self,
        Option.some.injEq] at h'
      rw [← h']
      exact objGet_objSet_self _ _ _

/-- Witness for C3: the empty registry rejects an unknown code, and a join
into the open room of `rmOne` succeeds. -/
theorem C3_witness :
    joinRoom (⟨[]⟩ : RM) "ZZZZ" "p" = (⟨[]⟩, JoinOutcome.err "Room not found") ∧
    (joinRoom rmOne "AAAA" "p2").2 = JoinOutcome.ok := by
  constructor
  · exact (C3_joinRoom_cases ⟨[]⟩ "ZZZZ" "p").1 rfl
  · exact ((C3_joinRoom_cases rmOne "AAAA" "p2").2.2.2 rmOneRoom (by decide)
      (by decide) (by decide)).1

/-- C6 counterexample: `createRoom` with the payload `teamSize = -1` does
not fail with `InvalidSettings` — a room is created, storing
`teamSize = -1` and `maxPlayers = -2`. -/
theorem C6_counterexample :
    (getRoom rmNegative "AAAA").map (fun r => r.settings.teamSize) = some (-1) ∧
    (getRoom rmNegative "AAAA").map (fun r => r.settings.maxPlayers) = some (-2) ∧
    rmNegative.rooms.length = 1 := by
  decide

/-- C6 (amended): `createRoom` performs no `teamSize` validation and never
fails: for a supplied `teamSize < 1` a room is still created — a falsy `0`
falls back to 1, while a negative value is stored as-is (with
`maxPlayers = teamSize * 2` going non-positive). -/
theorem C6_createRoom_accepts_invalid (rm : RM) (code hostId : String)
    (s : InSettings) (now : Nat) (v : Int) (hv : s.teamSize = some v)
    (hlt : v < 1) :
    ∃ room, getRoom (createRoom rm code hostId s now).1 code = some room ∧
      room.settings.teamSize = (if v = 0 then 1 else v) ∧
      room.settings.maxPlayers = (if v = 0 then 1 else v) * 2 := by
  simp only [createRoom, addPlayerToRoom, getRoom, objGet_objSet_self, hv]
  exact ⟨_, rfl, rfl, rfl⟩

/-- Witness for C6 at `teamSize = -1`. -/
theorem C6_witness :
    ∃ room, getRoom rmNegative "AAAA" = some room ∧
      room.settings.teamSize = (if (-1 : Int) = 0 then 1 else -1) ∧
      room.settings.maxPlayers = (if (-1 : Int) = 0 then 1 else -1) * 2 :=
  C6_createRoom_accepts_invalid ⟨[]⟩ "AAAA" "h" ⟨some (-1), none⟩ 0 (-1)
    rfl (by decide)

/-- C9 counterexample: for the payload `{teamSize: 1, map: ""}` the stored
map is the default `"orbital"`, not the supplied value `""` — the empty
string is falsy for the `settings.map || "orbital"` normalization. -/
theorem C9_counterexample :
    (getRoom rmEmptyMap "AAAA").map (fun r => r.settings.map) = some "orbital" ∧
    ("" : String) ≠ "orbital" := by
  decide

/-- C9 (amended): for `teamSize ≥ 1` or missing, `createRoom → getRoom`
round-trips the normalized settings: `teamSize` is the supplied value (or 1
when missing), `maxPlayers = 2 × teamSize`, and `map` is the supplied value
when non-empty, the default `"orbital"` when missing or empty. -/
theorem C9_settings_roundtrip (rm : RM) (code hostId : String)
    (s : InSettings) (now : Nat)
    (h : s.teamSize = none ∨ ∃ v, s.teamSize = some v ∧ 1 ≤ v) :
    ∃ room, getRoom (createRoom rm code hostId s now).1 code = some room ∧
      room.settings.teamSize =
        (match s.teamSize with
         | some v => v
         | none => 1) ∧
      room.settings.maxPlayers = 2 * room.settings.teamSize ∧
      room.settings.map =
        (match s.map with
         | some mp => if mp = "" then "orbital" else mp
         | none => "orbital") := by
  rcases h with h | ⟨v, hv, h1⟩
  · simp only [createRoom, addPlayerToRoom, getRoom, objGet_objSet_self, h]
    exact ⟨_, rfl, rfl, Int.mul_comm _ _, rfl⟩
  · have hv0 : ¬ (v = 0) := by omega
    simp only [createRoom, addPlayerToRoom, getRoom, objGet_objSet_self, hv,
      hv0, if_false]
    exact ⟨_, rfl, rfl, Int.mul_comm _ _, rfl⟩

/-- Witness for C9 at the payload `{teamSize: 1}` of `rmOne`. -/
theorem C9_witness :
    ∃ room, getRoom rmOne "AAAA" = some room ∧
      room.settings.teamSize = 1 ∧
      room.settings.maxPlayers = 2 * room.settings.teamSize ∧
      room.settings.map = "orbital" :=
  C9_settings_roundtrip ⟨[]⟩ "AAAA" "p1" ⟨some 1, none⟩ 0
    (Or.inr ⟨1, rfl, by decide⟩)

/-- C7: an `update_room_settings`, `round_state` or `player_hit` message
whose sender is not the host of the sender's current room (or has no room)
is silently dropped: the registry is unchanged and no event — in particular
no `room_settings_updated` — is emitted, with no error surfaced. -/
theorem C7_nonhost_dropped (rm : RM) (senderId : String) (s : InSettings)
    (h : (getPlayerRoom rm senderId).all
      (fun room => room.hostId != senderId) = true) :
    handleUpdateRoomSettings rm senderId s = (rm, []) ∧
    handleRoundState rm senderId = [] ∧
    handlePlayerHit rm senderId = [] := by
  cases hg : getPlayerRoom rm senderId with
  | none =>
      simp [handleUpdateRoomSettings, handleRoundState, handlePlayerHit, hg]
  | some room =>
      rw [hg] at h
      have hne : room.hostId ≠ senderId := by simpa using h
      simp [handleUpdateRoomSettings, handleRoundState, handlePlayerHit,
        hg, hne]

/-- Witness for C7: the non-host member `"p2"` of `rmScenario1` cannot
update settings or drive round/hit state. -/
theorem C7_witness :
    handleUpdateRoomSettings rmScenario1 "p2" ⟨some 5, none⟩ = (rmScenario1, []) ∧
    handleRoundState rmScenario1 "p2" = [] ∧
    handlePlayerHit rmScenario1 "p2" = [] :=
  C7_nonhost_dropped rmScenario1 "p2" ⟨some 5, none⟩ (by decide)

/-- C8: every player added by `addPlayerToRoom` (used by both `createRoom`
and `joinRoom`) is stored with the team given by the specification's rule:
the team with strictly fewer members, ties going to BLUE. -/
theorem C8_team_assignment (rm : RM) (roomId playerId : String)
    (hostFlag : Bool) (room : Room)
    (h : objGet rm.rooms roomId = some room) :
    ∀ room', objGet (addPlayerToRoom rm roomId playerId hostFlag).rooms
        roomId = some room' →
      objGet room'.players playerId = some
        { id := playerId,
          team := teamChoiceSpec (teamCount room Team.BLUE)
            (teamCount room Team.RED),
          isBot := false, isHost := hostFlag, name := none } := by
  intro room' h'
  simp only [addPlayerToRoom, h, objGet_objSet_self, Option.some.injEq] at h'
  rw [← h', teamChoiceSpec_eq]
  exact objGet_objSet_self _ _ _

/-- Witness for C8: adding `"p2"` to the room of `rmOne` (BLUE has 1
member, RED has 0) stores `"p2"` on RED. -/
theorem C8_witness :
    objGet rmOnePlus.players "p2" = some
      { id := "p2",
        team := teamChoiceSpec (teamCount rmOneRoom Team.BLUE)
          (teamCount rmOneRoom Team.RED),
        isBot := false, isHost := false, name := none } :=
  C8_team_assignment rmOne "AAAA" "p2" false rmOneRoom (by decide)
    rmOnePlus (by decide)

/-- C4 counterexample: in `rmScenario1` (BLUE = {p1, p3}, RED = {p2},
`teamSize` 2) the host shrinks `teamSize` to 1; the triggered rebalance
cannot move anyone (RED is full), so after `updateSettings` returns, BLUE
still has 2 > 1 = `teamSize` members. -/
theorem C4_counterexample :
    (getRoom rmShrunk "AAAA").map
      (fun r => ((teamCount r Team.BLUE : Int), r.settings.teamSize)) =
      some (2, 1) ∧
    ¬ ((2 : Int) ≤ 1) := by
  decide

/-- C4 (amended): `joinRoom` and `switchTeam` preserve the per-team cap
`count(team) ≤ teamSize` (given a well-formed room whose stored
`maxPlayers` is `teamSize * 2` and whose caps held before the call), and
the rebalance triggered by `updateSettings` restores the caps whenever the
room's member count is at most `2 ×` the new `teamSize`; when `teamSize`
shrinks below half the member count the oversized team keeps its excess
(see the counterexample). -/
theorem C4_team_caps :
    (∀ (rm : RM) (roomId playerId : String) (room : Room),
      objGet rm.rooms roomId = some room →
      room.settings.maxPlayers = room.settings.teamSize * 2 →
      (teamCount room Team.BLUE : Int) ≤ room.settings.teamSize →
      (teamCount room Team.RED : Int) ≤ room.settings.teamSize →
      ∀ room',
        objGet (joinRoom rm roomId playerId).1.rooms roomId = some room' →
        (teamCount room' Team.BLUE : Int) ≤ room'.settings.teamSize ∧
        (teamCount room' Team.RED : Int) ≤ room'.settings.teamSize) ∧
    (∀ (rm : RM) (roomId playerId : String) (tgt : Option Team) (room : Room),
      objGet rm.rooms roomId = some room →
      (teamCount room Team.BLUE : Int) ≤ room.settings.teamSize →
      (teamCount room Team.RED : Int) ≤ room.settings.teamSize →
      ∀ room',
        objGet (switchTeam rm roomId playerId tgt).1.rooms roomId =
          some room' →
        (teamCount room' Team.BLUE : Int) ≤ room'.settings.teamSize ∧
        (teamCount room' Team.RED : Int) ≤ room'.settings.teamSize) ∧
    (∀ (rm : RM) (roomId : String) (s : InSettings) (room : Room),
      objGet rm.rooms roomId = some room →
      (objKeys room.players).Nodup →
      ∀ room',
        objGet (updateSettings rm roomId s).1.rooms roomId = some room' →
        (room'.players.length : Int) ≤ room'.settings.teamSize * 2 →
        (teamCount room' Team.BLUE : Int) ≤ room'.settings.teamSize ∧
        (teamCount room' Team.RED : Int) ≤ room'.settings.teamSize) :=
  ⟨fun rm roomId playerId room h hmax hb hr =>
      joinRoom_caps rm roomId playerId room h hmax hb hr,
   fun rm roomId playerId tgt room h hb hr =>
      switchTeam_caps rm roomId playerId tgt room h hb hr,
   fun rm roomId s room h hnd =>
      updateSettings_caps rm roomId s room h hnd⟩

/-- Witness for C4: joining `"p2"` into the one-member room of `rmOne`
(`teamSize` 1, BLUE has 1 member and RED none) keeps both teams within the
cap. -/
theorem C4_witness :
    (teamCount rmOnePlus Team.BLUE : Int) ≤ rmOnePlus.settings.teamSize ∧
    (teamCount rmOnePlus Team.RED : Int) ≤ rmOnePlus.settings.teamSize :=
  (C4_team_caps.1 rmOne "AAAA" "p2" rmOneRoom (by decide) (by decide)
    (by decide) (by decide)) rmOnePlus (by decide)

/-- C5 counterexample: `rmTwoRooms` is reachable — `"p1"` creates `"AAAA"`,
`"p2"` creates `"BBBB"`, then `"p1"` joins `"BBBB"` — and `"p1"` is a
member of the players mapping of both active rooms at once. -/
theorem C5_counterexample :
    Reachable rmTwoRooms ∧
    (getRoom rmTwoRooms "AAAA").map
      (fun r => (objGet r.players "p1").isSome) = some true ∧
    (getRoom rmTwoRooms "BBBB").map
      (fun r => (objGet r.players "p1").isSome) = some true := by
  refine ⟨?_, by decide, by decide⟩
  exact Reachable.join _ "BBBB" "p1"
    (Reachable.create _ "BBBB" "p2" ⟨some 1, none⟩ 0
      (Reachable.create _ "AAAA" "p1" ⟨some 1, none⟩ 0 Reachable.init))

/-- C5 (amended): the registry does not enforce single-room membership.
`createRoom` and `joinRoom` mutate only the room whose code they target, so
a player who is a member of a different room stays a member of it — joining
a second room leaves the player in both. -/
theorem C5_membership_not_exclusive (rm : RM) (roomId playerId c : String) :
    (c ≠ roomId →
      getRoom (joinRoom rm roomId playerId).1 c = getRoom rm c) ∧
    (∀ code hostId s now, c ≠ code →
      getRoom (createRoom rm code hostId s now).1 c = getRoom rm c) ∧
    (∀ room : Room, c ≠ roomId → getRoom rm c = some room →
      (objGet room.players playerId).isSome = true →
      ∃ room', getRoom (joinRoom rm roomId playerId).1 c = some room' ∧
        (objGet room'.players playerId).isSome = true) := by
  have hframe : ∀ c', c' ≠ roomId →
      getRoom (joinRoom rm roomId playerId).1 c' = getRoom rm c' := by
    intro c' hc'
    cases h : objGet rm.rooms roomId with
    | none => simp [joinRoom, getRoom, h]
    | some room =>
        by_cases hg : room.gameState = "LOBBY"
        · by_cases hfull : ((objKeys room.players).length : Int) ≥
              room.settings.maxPlayers
          · simp [joinRoom, getRoom, h, hg, hfull]
          · simp only [joinRoom, h, hg, ne_eq, not_true_eq_false, if_false,
              hfull, ite_false, addPlayerToRoom, objGet_objSet_self]
            exact objGet_objSet_ne _ _ _ hc'
        · simp [joinRoom, getRoom, h, hg]
  refine ⟨hframe c, ?_, ?_⟩
  · intro code hostId s now hc
    exact createRoom_frame rm code hostId s now c hc
  · intro room hc hr hmem
    exact ⟨room, (hframe c hc).trans hr, hmem⟩

/-- Witness for C5: after `"p1"` joins `"BBBB"`, room `"AAAA"` is unchanged
and `"p1"` is still among its players. -/
theorem C5_witness :
    ∃ room', getRoom rmTwoRooms "AAAA" = some room' ∧
      (objGet room'.players "p1").isSome = true :=
  (C5_membership_not_exclusive
      (createRoom rmOne "BBBB" "p2" ⟨some 1, none⟩ 0).1 "BBBB" "p1"
      "AAAA").2.2 rmOneRoom (by decide) (by decide) (by decide)

/-- C10: `updateSettings` mutates only the target room's settings and (via
the rebalance) some players' `team` fields: every other room is untouched,
and the target room keeps its id, host, game state, creation time, member
keys, and every member's `id`/`isHost`/`isBot`/`name`; in particular no
player is removed even when `teamSize` shrinks below the member count. -/
theorem C10_updateSettings_frame (rm : RM) (roomId : String)
    (s : InSettings) (room : Room)
    (h : objGet rm.rooms roomId = some room) :
    (∀ c, c ≠ roomId →
      getRoom (updateSettings rm roomId s).1 c = getRoom rm c) ∧
    ∀ room', getRoom (updateSettings rm roomId s).1 roomId = some room' →
      memberView room' = memberView room ∧
      objKeys room'.players = objKeys room.players ∧
      room'.hostId = room.hostId ∧
      room'.gameState = room.gameState ∧
      room'.id = room.id ∧
      room'.createdAt = room.createdAt := by
  constructor
  · intro c hc
    simp only [updateSettings, h, getRoom]
    exact objGet_objSet_ne _ _ _ hc
  · intro room' h'
    simp only [updateSettings, h, getRoom, objGet_objSet_self,
      Option.some.injEq] at h'
    rw [← h']
    refine ⟨?_, ?_, rfl, rfl, rfl, rfl⟩
    · exact memberView_rebalanceTeams _
    · exact objKeys_rebalanceTeams _

/-- Witness for C10 at the `teamSize`-shrinking update of `rmScenario1`. -/
theorem C10_witness :
    getRoom rmShrunk "QQQQ" = getRoom rmScenario1 "QQQQ" ∧
    memberView shrunkRoom = memberView scenario1Room ∧
    objKeys shrunkRoom.players = objKeys scenario1Room.players ∧
    shrunkRoom.hostId = scenario1Room.hostId ∧
    shrunkRoom.gameState = scenario1Room.gameState ∧
    shrunkRoom.id = scenario1Room.id ∧
    shrunkRoom.createdAt = scenario1Room.createdAt := by
  constructor
  · exact (C10_updateSettings_frame rmScenario1 "AAAA" ⟨some 1, none⟩
      scenario1Room (by decide)).1 "QQQQ" (by decide)
  · exact (C10_updateSettings_frame rmScenario1 "AAAA" ⟨some 1, none⟩
      scenario1Room (by decide)).2 shrunkRoom (by decide)

/-- C2: in every registry state reachable under the normal-operation
discipline (players never join a room they are already in), every room with
at least one member has exactly one member flagged `isHost`, whose id is
`room.hostId`; when the host leaves a room that stays non-empty, the first
remaining player in iteration order is promoted, and when the last member
leaves the room is removed from the registry.  (Without the discipline the
invariant fails — see the counterexample.) -/
theorem C2_host_invariant :
    (∀ rm : RM, ReachableFresh rm →
      ∀ kv ∈ rm.rooms, (kv : String × Room).2.players ≠ [] →
        hostValueIds kv.2 = [kv.2.hostId]) ∧
    (∀ (rm : RM) (roomId playerId : String) (room : Room),
      objGet rm.rooms roomId = some room →
      objDelete room.players playerId = [] →
      objGet (leaveRoom rm roomId playerId).1.rooms roomId = none) ∧
    (∀ (rm : RM) (roomId playerId : String) (room : Room) (nid : String)
       (p0 : Player) (rest : List (String × Player)),
      objGet rm.rooms roomId = some room →
      room.hostId = playerId →
      objDelete room.players playerId = (nid, p0) :: rest →
      (leaveRoom rm roomId playerId).2 = some nid ∧
      ∃ room', objGet (leaveRoom rm roomId playerId).1.rooms roomId =
          some room' ∧ room'.hostId = nid ∧
        objGet room'.players nid = some { p0 with isHost := true }) := by
  refine ⟨?_, ?_, ?_⟩
  · intro rm hreach kv hkv _
    rcases ReachableFresh_registryWF rm hreach kv hkv with ⟨_, _, hids, hhost⟩
    rw [hostValueIds_eq_hostKeys kv.2 hids]
    exact hhost
  · intro rm roomId playerId room h hdel
    have hres : (leaveRoom rm roomId playerId).1 =
        RM.mk (objDelete rm.rooms roomId) := by
      simp [leaveRoom, h, hdel]
    rw [hres]
    exact objGet_objDelete_self _ _
  · intro rm roomId playerId room nid p0 rest h hhost hdel
    have hres : leaveRoom rm roomId playerId =
        (RM.mk (objSet rm.rooms roomId
          (Room.mk room.id nid
            (objUpdate ((nid, p0) :: rest) nid
              (fun p => { p with isHost := true }))
            room.gameState room.settings room.createdAt)), some nid) := by
      simp [leaveRoom, h, hdel, hhost]
    refine ⟨by rw [hres], ?_⟩
    refine ⟨Room.mk room.id nid
      (objUpdate ((nid, p0) :: rest) nid (fun p => { p with isHost := true }))
      room.gameState room.settings room.createdAt, ?_, rfl, ?_⟩
    · rw [hres]
      exact objGet_objSet_self _ _ _
    · simp [objUpdate, objGet]

/-- C2 counterexample: `rmSelfJoin` — the host `"p1"` of the one-member
room `"AAAA"` sends `join_room` for its own room — is reachable, and in the
resulting non-empty room no member has `isHost = true` (the join overwrote
the host's record with `isHost: false`) even though `hostId` is `"p1"`. -/
theorem C2_counterexample :
    Reachable rmSelfJoin ∧
    (getRoom rmSelfJoin "AAAA").map
      (fun r => (hostValueIds r, r.hostId, r.players.length)) =
      some ([], "p1", 1) := by
  constructor
  · exact Reachable.join rmOne "AAAA" "p1"
      (Reachable.create ⟨[]⟩ "AAAA" "p1" ⟨some 1, none⟩ 0 Reachable.init)
  · decide

/-- Witness for C2: the two-member room reached by a create and a fresh
join has exactly the host `"p1"` flagged; the last member leaving `rmOne`
destroys the room; the host leaving the two-member room promotes `"p2"`,
the first remaining player. -/
theorem C2_witness :
    hostValueIds rmOnePlus = ["p1"] ∧
    objGet (leaveRoom rmOne "AAAA" "p1").1.rooms "AAAA" = none ∧
    ((leaveRoom rmOneJoined "AAAA" "p1").2 = some "p2" ∧
     ∃ room', objGet (leaveRoom rmOneJoined "AAAA" "p1").1.rooms "AAAA" =
         some room' ∧ room'.hostId = "p2" ∧
       objGet room'.players "p2" = some
         { id := "p2", team := Team.RED, isBot := false, isHost := true,
           name := none }) := by
  refine ⟨?_, ?_, ?_⟩
  · exact C2_host_invariant.1 rmOneJoined
      (ReachableFresh.join rmOne "AAAA" "p2"
        (ReachableFresh.create ⟨[]⟩ "AAAA" "p1" ⟨some 1, none⟩ 0
          ReachableFresh.init)
        (fun room hr => by
          rw [show objGet rmOne.rooms "AAAA" = some rmOneRoom from by decide]
            at hr
          injection hr with hr
          rw [← hr]
          decide))
      ("AAAA", rmOnePlus) (by decide) (by decide)
  · exact C2_host_invariant.2.1 rmOne "AAAA" "p1" rmOneRoom (by decide)
      (by decide)
  · exact C2_host_invariant.2.2 rmOneJoined "AAAA" "p1" rmOnePlus "p2"
      { id := "p2", team := Team.RED, isBot := false, isHost := false,
        name := none } [] (by decide) (by decide) (by decide)

end Dodgeball